import Mathlib

/-!
Verification of the generation-and-caching core of the event-copy generator
(`event_llm_core.py`).

Modelling conventions, used throughout:

* Python strings are modelled as `List Char` (`PyStr`); `str.lower`,
  `str.strip`, `str.split`, `str.replace`, slicing and `in` are modelled by
  the `py*` functions below, written to match CPython semantics on the
  inputs the program produces.
* Python floats are modelled as `ℚ`.  Every numeric formula the claims
  touch is exact at the analysed points; the three spots where IEEE-754
  rounding of a division could differ from exact rational arithmetic by one
  unit (the `max_tokens` budgets computed with `/2.8`, `/2.6`, `/2.5` and
  the `0.6 * max_chars` diagnostic) feed only the abstract cache-key
  function or a diagnostics field and are noted inline.
* External libraries are parameters of the model (record `Ctx`):
  `json.loads` is an arbitrary function `jparse`, the MD5 digest
  `_get_cache_key` an arbitrary function `mkKey`, the network client an
  arbitrary stream `oracle` of per-attempt outcomes, and the wall clock the
  constants `now` (cache timestamps, hours) and `rt` (elapsed seconds).
* The process-global `cache`/`analytics` pair is threaded as explicit
  state `Sys`; the persistent cache layer is modelled with I/O succeeding
  (claims about I/O failure are out of scope).
-/

/-! ## Python string primitives -/

abbrev PyStr := List Char

def pyLower (s : PyStr) : PyStr := s.map Char.toLower

def pyUpper (s : PyStr) : PyStr := s.map Char.toUpper

/-- Strip characters satisfying `p` from both ends (Python `str.strip`). -/
def pyStripBy (p : Char → Bool) (s : PyStr) : PyStr :=
  ((s.dropWhile p).reverse.dropWhile p).reverse

def pyStripWs (s : PyStr) : PyStr := pyStripBy (fun c => c.isWhitespace) s

def pyStripChars (cs : PyStr) (s : PyStr) : PyStr := pyStripBy (fun c => cs.contains c) s

/-- Split at every character satisfying `p`, keeping empty pieces
(Python `str.split(sep)` semantics for a one-character separator). -/
def pySplitP (p : Char → Bool) : PyStr → List PyStr
  | [] => [[]]
  | c :: rest =>
    let r := pySplitP p rest
    if p c then [] :: r else ((c :: r.headD []) :: r.tail)

def pySplitOnChar (sep : Char) (s : PyStr) : List PyStr := pySplitP (fun c => c == sep) s

/-- Python no-argument `str.split()`: split on whitespace runs, no empties. -/
def pySplitWs (s : PyStr) : List PyStr :=
  (pySplitP (fun c => c.isWhitespace) s).filter (fun w => !w.isEmpty)

/-- Python `s.startswith(pat)`. -/
def pyStartsWith : PyStr → PyStr → Bool
  | _, [] => true
  | [], _ :: _ => false
  | c :: s, p :: ps => c == p && pyStartsWith s ps

/-- Python `s.endswith(pat)`. -/
def pyEndsWith (s pat : PyStr) : Bool := pyStartsWith s.reverse pat.reverse

/-- Python `pat in s` (substring test). -/
def pyContainsSub : PyStr → PyStr → Bool
  | [], pat => pat.isEmpty
  | s@(_ :: rest), pat => pyStartsWith s pat || pyContainsSub rest pat

/-- Python `s.replace(pat, rep)`: left-to-right, non-overlapping.
Structural recursion on a fuel bounded by `s.length` (each step consumes
at least one character, so the fuel never runs out). -/
def pyReplaceGo : Nat → PyStr → PyStr → PyStr → PyStr
  | 0, s, _, _ => s
  | fuel + 1, s, pat, rep =>
    match s with
    | [] => []
    | c :: rest =>
      if pat ≠ [] ∧ pyStartsWith (c :: rest) pat then
        rep ++ pyReplaceGo fuel ((c :: rest).drop pat.length) pat rep
      else c :: pyReplaceGo fuel rest pat rep

def pyReplace (s pat rep : PyStr) : PyStr := pyReplaceGo s.length s pat rep

/-- Python `sep.join(pieces)`. -/
def pyJoin (sep : PyStr) (pieces : List PyStr) : PyStr :=
  match pieces with
  | [] => []
  | p :: rest => rest.foldl (fun acc q => acc ++ sep ++ q) p

/-- Decimal digit character, used to model Python `str(int)`. -/
def digitChar (d : Nat) : Char :=
  if d = 0 then '0' else if d = 1 then '1' else if d = 2 then '2'
  else if d = 3 then '3' else if d = 4 then '4' else if d = 5 then '5'
  else if d = 6 then '6' else if d = 7 then '7' else if d = 8 then '8' else '9'

def digitVal (c : Char) : Nat := c.toNat - 48

/-- Decimal rendering loop, structural on a fuel bounded below by the
digit count (`n` itself is always enough fuel since `n / 10 < n`). -/
def natStrGo : Nat → Nat → PyStr → PyStr
  | 0, _, acc => acc
  | fuel + 1, n, acc =>
    if n < 10 then digitChar n :: acc
    else natStrGo fuel (n / 10) (digitChar (n % 10) :: acc)

/-- Python `str(n)` for a natural number. -/
def natStr (n : Nat) : PyStr := natStrGo (n + 1) n []

/-- Python `str(i)` for an integer. -/
def intStr (i : Int) : PyStr :=
  if i < 0 then '-' :: natStr i.natAbs else natStr i.natAbs

/-- Decimal value of a digit string (used to invert `natStr`). -/
def digitsVal (l : PyStr) : Nat := l.foldl (fun a c => 10 * a + digitVal c) 0

/-! ## CostEstimator / TokenCounter (`count_tokens`, `estimate_cost`) -/

/-- `count_tokens(text) = max(len(text.split()), int(len(text) / 3.5))`.
`int(n / 3.5)` under IEEE-754 equals the exact floor `2*n/7` for every
feasible length (the quotient is at distance ≥ 1/7 from any integer it is
not equal to, far above the rounding error). -/
def count_tokens (text : PyStr) : Nat :=
  max (pySplitWs text).length ((2 * text.length) / 7)

/-- `estimate_cost`: per-model (input, output) rates per 1000 tokens, flat
0.02 fallback for unknown models. -/
def estimate_cost (prompt_tokens completion_tokens : Nat) (model : PyStr) : ℚ :=
  if model = "gpt-3.5-turbo".data then
    0.0005 * ((prompt_tokens : ℚ) / 1000) + 0.0015 * ((completion_tokens : ℚ) / 1000)
  else if model = "gpt-4".data then
    0.03 * ((prompt_tokens : ℚ) / 1000) + 0.06 * ((completion_tokens : ℚ) / 1000)
  else 0.02

/-! ## PerformanceAnalytics -/

structure Metrics where
  totalRequests : Nat
  cacheHits : Nat
  totalCost : ℚ
  totalTokens : Nat
  avgResponseTime : ℚ
  errorRate : ℚ
deriving DecidableEq, Repr

def Metrics.init : Metrics := ⟨0, 0, 0, 0, 0, 0⟩

/-- `PerformanceAnalytics.record_request`, statement-by-statement:
increment `total_requests`; on a hit increment `cache_hits`, otherwise add
cost and tokens; recompute `avg_response_time` from the new total; update
`error_rate` only when `error` is true. -/
def record_request (m : Metrics) (cost : ℚ) (tokens : Nat) (response_time : ℚ)
    (from_cache : Bool) (error : Bool) : Metrics :=
  let m1 := { m with totalRequests := m.totalRequests + 1 }
  let m2 :=
    if from_cache then { m1 with cacheHits := m1.cacheHits + 1 }
    else { m1 with totalCost := m1.totalCost + cost, totalTokens := m1.totalTokens + tokens }
  let m3 := { m2 with avgResponseTime :=
    (m2.avgResponseTime * ((m2.totalRequests : ℚ) - 1) + response_time) / (m2.totalRequests : ℚ) }
  if error then
    { m3 with errorRate :=
      (m3.errorRate * ((m3.totalRequests : ℚ) - 1) + 1) / (m3.totalRequests : ℚ) }
  else m3

/-- `PerformanceAnalytics.get_efficiency_score`, including the literal
`weights`/`components` pairing of the source (`zip` order matters). -/
def get_efficiency_score (m : Metrics) : ℚ :=
  if m.totalRequests = 0 then 0
  else
    let cache_efficiency : ℚ := min ((m.cacheHits : ℚ) / (m.totalRequests : ℚ)) 1
    let avg_cost_per_request : ℚ :=
      if 0 < m.totalRequests then m.totalCost / (m.totalRequests : ℚ) else 0
    let cost_efficiency : ℚ := max 0 (1 - min (avg_cost_per_request / 0.005) 1)
    let speed_efficiency : ℚ := max 0 (1 - min (m.avgResponseTime / 15) 1)
    let error_efficiency : ℚ := 1 - m.errorRate
    let token_efficiency : ℚ :=
      if 0 < m.totalRequests then
        max 0 (1 - min (((m.totalTokens : ℚ) / (m.totalRequests : ℚ)) / 2000) 1)
      else 0
    let weights : List ℚ := [0.25, 0.20, 0.25, 0.20, 0.10]
    let components : List ℚ :=
      [cache_efficiency, cost_efficiency, speed_efficiency, error_efficiency, token_efficiency]
    ((weights.zip components).foldl (fun acc p => acc + p.1 * p.2) 0) * 100

/-! Spec-side efficiency formulas (for comparison with the code).  The five
sub-scores below follow the spec's wording. -/

def cacheEffSpec (m : Metrics) : ℚ := min ((m.cacheHits : ℚ) / (m.totalRequests : ℚ)) 1

def costEffSpec (m : Metrics) : ℚ :=
  max 0 (1 - min ((m.totalCost / (m.totalRequests : ℚ)) / 0.005) 1)

def speedEffSpec (m : Metrics) : ℚ := max 0 (1 - min (m.avgResponseTime / 15) 1)

def errorEffSpec (m : Metrics) : ℚ := 1 - m.errorRate

def tokenEffSpec (m : Metrics) : ℚ :=
  max 0 (1 - min (((m.totalTokens : ℚ) / (m.totalRequests : ℚ)) / 2000) 1)

/-- The efficiency score exactly as the claim states it: cache 0.25,
cost 0.25, speed 0.20, error 0.20, token 0.10. -/
def claimed_efficiency (m : Metrics) : ℚ :=
  100 * (0.25 * cacheEffSpec m + 0.25 * costEffSpec m + 0.20 * speedEffSpec m
    + 0.20 * errorEffSpec m + 0.10 * tokenEffSpec m)

/-- The efficiency score with the weight pairing the code actually uses:
cache 0.25, cost 0.20, speed 0.25, error 0.20, token 0.10. -/
def amended_efficiency (m : Metrics) : ℚ :=
  100 * (0.25 * cacheEffSpec m + 0.20 * costEffSpec m + 0.25 * speedEffSpec m
    + 0.20 * errorEffSpec m + 0.10 * tokenEffSpec m)

/-- Concrete metrics state separating the claimed and actual weightings:
one request costing exactly 0.005 with zero latency. -/
def mWeights : Metrics := ⟨1, 0, 0.005, 0, 0, 0⟩

/-- Concrete metrics state with one recorded error. -/
def mOneError : Metrics := ⟨1, 0, 0, 0, 0, 1⟩

/-! ## SmartCache -/

structure CacheEntry where
  content : PyStr
  timestamp : ℚ
deriving Repr

/-- Two-layer cache state: `memoryCache` models the insertion-ordered
Python dict, `persistent` the pickle records of the cache directory
(one per key), `ttl` is `timedelta(hours=ttl_hours)` measured in hours,
and `max_memory_items` is fixed to 100 by the constructor. -/
structure CacheSt where
  memoryCache : List (PyStr × CacheEntry)
  persistent : List (PyStr × CacheEntry)
  ttl : ℚ
  max_memory_items : Nat
deriving Repr

/-- `SmartCache.__init__(cache_dir="cache", ttl_hours=48)`. -/
def SmartCache.mk0 (ttl_hours : ℚ) : CacheSt := ⟨[], [], ttl_hours, 100⟩

/-- Binding of a key in an association list (Python dict lookup; keys are
unique in every reachable dict). -/
def assocFind (l : List (PyStr × CacheEntry)) (key : PyStr) : Option CacheEntry :=
  match l with
  | [] => none
  | p :: rest => if p.1 = key then some p.2 else assocFind rest key

/-- Python `d[k] = v`: replace in place when the key is present (keeping
its position), append otherwise. -/
def dictSet (l : List (PyStr × CacheEntry)) (key : PyStr) (data : CacheEntry) :
    List (PyStr × CacheEntry) :=
  if (assocFind l key).isSome then
    l.map (fun p => if p.1 = key then (key, data) else p)
  else l ++ [(key, data)]

/-- Python `del d[k]`. -/
def dictDel (l : List (PyStr × CacheEntry)) (key : PyStr) : List (PyStr × CacheEntry) :=
  l.filter (fun p => decide (p.1 ≠ key))

/-- `min(d.keys(), key=lambda k: d[k]['timestamp'])` paired with its
entry: the first key of minimal timestamp in iteration (= insertion)
order, exactly as Python's `min` breaks ties. -/
def oldestEntry : List (PyStr × CacheEntry) → Option (PyStr × CacheEntry)
  | [] => none
  | p :: rest =>
    some (rest.foldl (fun acc q => if q.2.timestamp < acc.2.timestamp then q else acc) p)

/-- Persistent-layer half of `SmartCache.get`: the code path taken when
the memory lookup misses (or its entry was expired and deleted).  A
present, unexpired record is returned and promoted only when the memory
layer is strictly below capacity; an expired record is deleted. -/
def getPersistent (c : CacheSt) (now : ℚ) (key : PyStr) : Option PyStr × CacheSt :=
  match assocFind c.persistent key with
  | some data =>
    if now - data.timestamp < c.ttl then
      if c.memoryCache.length < c.max_memory_items then
        (some data.content, { c with memoryCache := c.memoryCache ++ [(key, data)] })
      else (some data.content, c)
    else (none, { c with persistent := dictDel c.persistent key })
  | none => (none, c)

/-- `SmartCache.get`. -/
def SmartCache.get (c : CacheSt) (now : ℚ) (key : PyStr) : Option PyStr × CacheSt :=
  match assocFind c.memoryCache key with
  | some data =>
    if now - data.timestamp < c.ttl then (some data.content, c)
    else getPersistent { c with memoryCache := dictDel c.memoryCache key } now key
  | none => getPersistent c now key

/-- `SmartCache.set` (the best-effort pickle write modelled as
succeeding). -/
def SmartCache.set (c : CacheSt) (now : ℚ) (key content : PyStr) : CacheSt :=
  let data : CacheEntry := ⟨content, now⟩
  let mem :=
    if c.max_memory_items ≤ c.memoryCache.length then
      match oldestEntry c.memoryCache with
      | some oldest => dictDel c.memoryCache oldest.1
      | none => c.memoryCache
    else c.memoryCache
  { c with memoryCache := dictSet mem key data,
           persistent := dictSet c.persistent key data }

/-- One external cache operation (`now` is the wall clock at the call). -/
inductive CacheOp where
  | opGet (now : ℚ) (key : PyStr)
  | opSet (now : ℚ) (key content : PyStr)

def applyOp (c : CacheSt) : CacheOp → CacheSt
  | .opGet now key => (SmartCache.get c now key).2
  | .opSet now key content => SmartCache.set c now key content

def applyOps (c : CacheSt) (ops : List CacheOp) : CacheSt := ops.foldl applyOp c

/-- Fold a list of `(key, content, insertion time)` triples through
`SmartCache.set`. -/
def insertAll (c : CacheSt) (entries : List (PyStr × PyStr × ℚ)) : CacheSt :=
  entries.foldl (fun acc e => SmartCache.set acc e.2.2 e.1 e.2.1) c

def toCacheEntry (e : PyStr × PyStr × ℚ) : PyStr × CacheEntry := (e.1, ⟨e.2.1, e.2.2⟩)

/-- A cache whose memory layer is exactly at capacity (100 entries with
pairwise-distinct keys) while one further key lives only in the
persistent layer — the state reached, e.g., after 101 distinct `set`s
followed by eviction of `"extra"` . -/
def fullCache : CacheSt :=
  { memoryCache := (List.range 100).map (fun i => (List.replicate i 'a', ⟨['v'], 0⟩)),
    persistent := [("extra".data, ⟨"stored".data, 0⟩)],
    ttl := 48,
    max_memory_items := 100 }

/-- A cache with one spare memory slot and a persistent-only key, used to
witness the below-capacity promotion path of `get`. -/
def roomyCache : CacheSt :=
  { memoryCache := [("k1".data, ⟨['v'], 0⟩)],
    persistent := [("k1".data, ⟨['v'], 0⟩), ("extra".data, ⟨"stored".data, 0⟩)],
    ttl := 48,
    max_memory_items := 100 }

/-- First entry of the concrete C7 insertion batch: key `""`, time 0. -/
def evictHead : PyStr × PyStr × ℚ := ([], (['v'], 0))

/-- Remaining 100 entries of the C7 batch: key `'a'` repeated `i + 1`
times, strictly increasing times `i + 1`. -/
def evictTail : List (PyStr × PyStr × ℚ) :=
  (List.range 100).map (fun i => (List.replicate (i + 1) 'a', (['v'], ((i + 1 : ℕ) : ℚ))))

/-! ## PromptOptimizer -/

/-- `PromptOptimizer.compress_prompt(prompt, target_reduction)`: keep
lines containing an emphasis keyword (case-insensitive); truncate other
non-trivial lines (stripped length > 10, stripped form not starting with
`-`) to `int(len(line) * (1 - target_reduction))` characters; drop the
rest.  For the reductions the program uses (0.5 and 0.25) the float
product is exact, so the `int()` equals the rational floor. -/
def compress_prompt (prompt : PyStr) (target_reduction : ℚ) : PyStr :=
  let lines := pySplitOnChar '\n' prompt
  let essential_lines := lines.foldr (fun line acc =>
    if ["CRITICAL".data, "MUST".data, "REQUIRED".data, "ESSENTIAL".data].any
        (fun keyword => pyContainsSub (pyUpper line) keyword) then
      line :: acc
    else if 10 < (pyStripWs line).length ∧ pyStartsWith (pyStripWs line) "-".data = false then
      line.take (Int.toNat ⌊(line.length : ℚ) * (1 - target_reduction)⌋) :: acc
    else acc) []
  pyJoin "\n".data essential_lines

/-- `PromptOptimizer.optimize_for_cost(prompt, cost_mode)`. -/
def optimize_for_cost (prompt : PyStr) (cost_mode : PyStr) : PyStr :=
  if cost_mode = "economy".data then
    pyReplace (pyReplace (pyReplace (pyReplace (compress_prompt prompt 0.5)
      "Please provide".data "Provide".data)
      "You should".data [])
      "It is important to".data [])
      "Make sure to".data []
  else if cost_mode = "premium".data then prompt
  else compress_prompt prompt 0.25

/-! ## clean_json_output -/

def clean_json_output (raw : PyStr) : PyStr :=
  let r1 := pyStripWs raw
  let r2 := if pyStartsWith r1 "```json".data then pyStripWs (r1.drop 7) else r1
  let r3 := if pyStartsWith r2 "```".data then pyStripWs (r2.drop 3) else r2
  if pyEndsWith r3 "```".data then pyStripWs (r3.take (r3.length - 3)) else r3

/-! ## External context and threaded system state -/

/-- A decoded JSON value: either a string literal or any other value,
carried together with its Python `str()` rendering. -/
inductive JVal where
  | jstr (s : PyStr)
  | jother (srepr : PyStr)

/-- Python `str(v)` of a decoded JSON value. -/
def JVal.pyStr : JVal → PyStr
  | .jstr s => s
  | .jother r => r

/-- Outcome of `json.loads` on a cleaned model response: a JSON list, a
non-list JSON value, or a raised decode exception. -/
inductive JsonOut where
  | jlist (items : List JVal)
  | jnonlist
  | jerror (msg : PyStr)

/-- The external world of one run: the MD5-based key builder
`SmartCache._get_cache_key` (an arbitrary pure digest), the `json.loads`
decoder, the network (`oracle n` is the outcome of the `n`-th completion
attempt of the process), and the wall clock (`now` for cache timestamps in
hours, `rt` for the recorded elapsed seconds). -/
structure Ctx where
  mkKey : PyStr → PyStr → Nat → ℚ → PyStr → PyStr
  jparse : PyStr → JsonOut
  oracle : Nat → Except PyStr PyStr
  now : ℚ
  rt : ℚ

/-- The module-level mutable state: the global `cache`, the global
`analytics`, and a count of network attempts made so far (the index into
`Ctx.oracle`). -/
structure Sys where
  cache : CacheSt
  analytics : Metrics
  netCalls : Nat

/-- Python truthiness of `cached_result` (`None` and `""` are falsy). -/
def pyTruthyOpt : Option PyStr → Bool
  | some s => !s.isEmpty
  | none => false

/-- The retry loop of `smart_api_call`: up to `fuel` attempts (the source
uses 3); each failure consumes one oracle outcome and sleeps (not
modelled); the final failure records an error and re-raises; a success
stores the trimmed response in the cache and records a costed request. -/
def apiAttempts (ctx : Ctx) (cache_key opt_sys opt_user model : PyStr) :
    Sys → Nat → Except PyStr PyStr × Sys
  | st, 0 => (.error [], st)
  | st, fuel + 1 =>
    match ctx.oracle st.netCalls with
    | .ok response =>
      let st1 := { st with netCalls := st.netCalls + 1 }
      let result := pyStripWs response
      let st2 := { st1 with cache := SmartCache.set st1.cache ctx.now cache_key result }
      let prompt_tokens := count_tokens (opt_sys ++ opt_user)
      let completion_tokens := count_tokens result
      let cost := estimate_cost prompt_tokens completion_tokens model
      let st3 := { st2 with analytics :=
        (record_request st2.analytics cost (prompt_tokens + completion_tokens) ctx.rt false false) }
      (.ok result, st3)
    | .error e =>
      let st1 := { st with netCalls := st.netCalls + 1 }
      if fuel = 0 then
        (.error e,
         { st1 with analytics := record_request st1.analytics 0 0 ctx.rt false true })
      else
        apiAttempts ctx cache_key opt_sys opt_user model st1 fuel

/-- `smart_api_call(system_msg, user_msg, max_tokens, temperature,
model="gpt-3.5-turbo", cost_mode="balanced")`. -/
def smart_api_call (ctx : Ctx) (st : Sys) (system_msg user_msg : PyStr)
    (max_tokens : Nat) (temperature : ℚ) (model cost_mode : PyStr) :
    Except PyStr PyStr × Sys :=
  let optimized_system := optimize_for_cost system_msg cost_mode
  let optimized_user := optimize_for_cost user_msg cost_mode
  let cache_key := ctx.mkKey optimized_system optimized_user max_tokens temperature model
  let got := SmartCache.get st.cache ctx.now cache_key
  let st1 := { st with cache := got.2 }
  if pyTruthyOpt got.1 then
    (.ok (got.1.getD []),
     { st1 with analytics := record_request st1.analytics 0 0 ctx.rt true false })
  else
    apiAttempts ctx cache_key optimized_system optimized_user model st1 3

/-- Concrete context for the C10 witness: a constant digest, a failing
JSON decoder, a network that always answers `"hello world"`. -/
def c10Ctx : Ctx :=
  { mkKey := fun _ _ _ _ _ => "k".data,
    jparse := fun _ => JsonOut.jerror [],
    oracle := fun _ => .ok "hello world".data,
    now := 0,
    rt := 0 }

/-- Concrete state for the C10 witness: the key `"k"` is cached with
empty-string content, stored at time 0. -/
def c10Sys : Sys :=
  { cache := { memoryCache := [("k".data, ⟨[], 0⟩)], persistent := [],
               ttl := 48, max_memory_items := 100 },
    analytics := Metrics.init,
    netCalls := 0 }

/-- Concrete context for the C2 run: the digest is the `max_tokens`
argument rendered in decimal (so the two calls of the run use distinct
cache keys and no comparison of stored timestamps is ever reached), the
JSON decoder always fails, and the network always answers the empty
string, forcing the pipeline through fallbacks into the numbered
fillers. -/
def c2Ctx : Ctx :=
  { mkKey := fun _ _ mt _ _ => natStr mt,
    jparse := fun _ => JsonOut.jerror "not json".data,
    oracle := fun _ => .ok [],
    now := 0,
    rt := 0 }

/-- Fresh state for the C2 run: empty cache, fresh analytics. -/
def c2Sys : Sys :=
  { cache := SmartCache.mk0 48, analytics := Metrics.init, netCalls := 0 }

/-- The five titles produced by the C2 run: four word-bound creative
fallbacks followed by the numbered filler `"a b c d e f 1"`. -/
def c2Titles : List PyStr :=
  ["x f Experience".data, "Advanced f Series".data, "Premier f Event".data,
   "Professional f Network".data, "a b c d e f 1".data]

/-! ## GenerationEngine — title generation -/

/-- `get_title_examples`: the fixed example dictionary with its default. -/
def get_title_examples (category event_type tone : PyStr) : List PyStr :=
  if category = "Technology".data ∧ event_type = "Conference".data ∧
      tone = "Professional".data then
    ["Tech Leadership Summit".data, "Digital Innovation Forum".data,
     "Future Systems Expo".data]
  else if category = "Technology".data ∧ event_type = "Workshop".data ∧
      tone = "Creative".data then
    ["Code & Create Lab".data, "Innovation Studio".data, "Digital Makers Hub".data]
  else if category = "Business".data ∧ event_type = "Conference".data ∧
      tone = "Professional".data then
    ["Business Growth Summit".data, "Leadership Excellence Forum".data,
     "Strategic Success Conference".data]
  else if category = "Business".data ∧ event_type = "Seminar".data ∧
      tone = "Formal".data then
    ["Executive Mastery Series".data, "Strategic Leadership Institute".data,
     "Business Excellence Summit".data]
  else if category = "Education".data ∧ event_type = "Conference".data ∧
      tone = "Innovative".data then
    ["Learning Revolution Summit".data, "Educational Innovation Forum".data,
     "Teaching Excellence Expo".data]
  else
    [category ++ " Excellence Summit".data,
     event_type ++ " Innovation Forum".data,
     "Advanced ".data ++ category ++ " Workshop".data]

/-- `validate_inputs(category, event_type, tone, num_titles, context)`:
`(errors, warnings)`.  A missing field is the empty string (Python falsy);
the placeholder values come from the UI select boxes. -/
def validate_inputs (category event_type tone : PyStr) (num_titles : Int)
    (context : PyStr) : List PyStr × List PyStr :=
  let errors :=
    (if category = [] ∨ category = "Select event category".data then
      ["Category is required".data] else []) ++
    (if event_type = [] ∨ event_type = "Select event type".data then
      ["Event type is required".data] else []) ++
    (if tone = [] ∨ tone = "Select tone of event".data then
      ["Tone is required".data] else [])
  let warnings :=
    (if num_titles < 1 ∨ 5 < num_titles then
      ["Number of titles (".data ++ intStr num_titles ++
        ") should be between 1-5".data] else []) ++
    (if context ≠ [] ∧ 200 < context.length then
      ["Context is very long - may increase costs".data] else [])
  (errors, warnings)

/-- The `CRITICAL CONTEXT REQUIREMENTS` block appended to the title
prompts when a non-blank context is given. -/
def titleContextStr (context : PyStr) : PyStr :=
  if context ≠ [] ∧ pyStripWs context ≠ [] then
    "\n\nCRITICAL CONTEXT REQUIREMENTS:\n- Incorporate the following specific context: ".data ++
    pyStripWs context ++
    "\n- Ensure titles reflect the unique aspects mentioned in the context\n- Use context details to create more targeted and relevant titles\n- Make titles specific to the context provided\n- Avoid generic titles that don\x27t reflect the context".data
  else []

def diversity_instruction : PyStr :=
  "Each title must be unique, creative, and use different wording. Avoid repeating phrases or structures. No emojis or decorative symbols.".data

structure TitlePrompt where
  system_msg : PyStr
  user_msg : PyStr
  max_tokens : Nat
  temperature : ℚ

/-- The cost-mode-specific prompt construction of `generate_titles`
(economy / premium / balanced branches, lines 290–334 of the source). -/
def titlePrompts (category event_type tone : PyStr) (n : Nat)
    (context_str : PyStr) (cost_mode : PyStr) : TitlePrompt :=
  if cost_mode = "economy".data then
    { system_msg := "Generate ".data ++ natStr n ++ " creative, unique ".data ++
        pyLower tone ++ " event titles for ".data ++ category ++ " ".data ++
        event_type ++ ". 3-6 words each, no colons. JSON format. ".data ++
        diversity_instruction ++ context_str,
      user_msg := "Create ".data ++ natStr n ++ " unique, creative titles for ".data ++
        category ++ " ".data ++ event_type ++ " (".data ++ tone ++ ")".data ++ context_str,
      max_tokens := 15 * n + 40,
      temperature := 0.85 }
  else if cost_mode = "premium".data then
    let example_block := pyJoin "\n".data
      ["[\"Innovate Now Summit\", \"Future Leaders Forum\", \"Tech Vision Expo\"]".data,
       "[\"Business Growth Bootcamp\", \"Leadership Mastery Workshop\", \"Strategic Success Seminar\"]".data,
       "[\"Learning Revolution Conference\", \"Education Innovation Forum\", \"Teaching Excellence Expo\"]".data]
    { system_msg := "Expert event marketer. Generate EXACTLY ".data ++ natStr n ++
        " compelling ".data ++ pyLower tone ++ " titles for ".data ++ category ++
        " ".data ++ event_type ++
        ".\n\nCRITICAL REQUIREMENTS:\n- Generate EXACTLY ".data ++ natStr n ++
        " titles, no more, no less\n- Each title must be 3-6 words long\n- Each title must be unique and creative\n- Use different words, phrases, and focus areas for each title\n- Format as a clean JSON array: [\"Title 1\", \"Title 2\", \"Title 3\"]\n- NO explanations, NO extra text, just the JSON array\n\nExamples of diverse titles:\n".data ++
        example_block ++ "\n\nStyle: ".data ++ pyLower tone ++
        ", memorable, actionable".data ++ context_str,
      user_msg := "Generate EXACTLY ".data ++ natStr n ++
        " exceptional, unique titles for ".data ++ category ++ " ".data ++
        event_type ++ " with ".data ++ tone ++
        " tone. Return only a JSON array.".data ++ context_str,
      max_tokens := 20 * n + 60,
      temperature := 0.9 }
  else
    let examples := get_title_examples category event_type tone
    { system_msg := "Professional event title generator. Create EXACTLY ".data ++
        natStr n ++ " ".data ++ pyLower tone ++ " titles for ".data ++ category ++
        " ".data ++ event_type ++
        ".\n\nREQUIREMENTS:\n- Generate EXACTLY ".data ++ natStr n ++
        " titles\n- Length: 3-6 words each\n- Style: ".data ++ pyLower tone ++
        ", memorable\n- Format: JSON array only\n- Each title must be unique and use different words or focus\n- Avoid repeating phrases or structures\n\nExamples: ".data ++
        examples.getD 0 [] ++ ", ".data ++ examples.getD 1 [] ++ context_str,
      user_msg := "Generate EXACTLY ".data ++ natStr n ++ " unique titles: ".data ++
        category ++ " ".data ++ event_type ++ " (".data ++ tone ++
        "). Return JSON array only.".data ++ context_str,
      max_tokens := 18 * n + 50,
      temperature := 0.85 }

/-- The 3–6-word bound used throughout `generate_titles`. -/
def wordBound (t : PyStr) : Prop :=
  3 ≤ (pySplitWs t).length ∧ (pySplitWs t).length ≤ 6

instance (t : PyStr) : Decidable (wordBound t) := by
  unfold wordBound
  infer_instance

/-- Strict-parse acceptance (source line 346–347): keep string items with
non-blank strip, then the word bound. -/
def strictTitles (items : List JVal) : List PyStr :=
  ((items.filterMap (fun t => match t with
      | JVal.jstr s => if pyStripWs s ≠ [] then some (pyStripWs s) else none
      | JVal.jother _ => none)).filter (fun t => decide (wordBound t)))

/-- The strip chain of the permissive fallback (source line 354):
`strip().strip('"').strip("'").strip('-').strip('1234567890.').strip()`. -/
def cleanLine (line : PyStr) : PyStr :=
  pyStripWs (pyStripChars "1234567890.".data (pyStripChars "-".data
    (pyStripChars "\x27".data (pyStripChars "\"".data (pyStripWs line)))))

/-- `result.replace('[','').replace(']','').replace('"','').split(',')`. -/
def permissiveLines (result : PyStr) : List PyStr :=
  pySplitOnChar ','
    (pyReplace (pyReplace (pyReplace result "[".data []) "]".data []) "\"".data [])

/-- Permissive extraction of the first round (source lines 352–358):
case-sensitive duplicate check against `titles`, break at `n`. -/
def permissiveExtract0 (n : Nat) : List PyStr → List PyStr → List PyStr
  | [], titles => titles
  | line :: rest, titles =>
    let clean := cleanLine line
    if clean ≠ [] ∧ wordBound clean ∧ clean ∉ titles then
      let titles2 := titles ++ [clean]
      if n ≤ titles2.length then titles2
      else permissiveExtract0 n rest titles2
    else permissiveExtract0 n rest titles

/-- Outcome of the first parse (source lines 343–358): accepted titles and
the optional `parsing_error` text. -/
def parseRound0 (jp : JsonOut) (n : Nat) (result : PyStr) :
    List PyStr × Option PyStr :=
  match jp with
  | .jlist items => (strictTitles items, none)
  | .jnonlist => ([], some "JSON is not a list".data)
  | .jerror msg => (permissiveExtract0 n (permissiveLines result) [], some msg)

/-- Case-insensitive deduplication (source lines 360–365): returns the
deduplicated list and the full `seen` set (in insertion order). -/
def dedupLoop : List PyStr → List PyStr → List PyStr → List PyStr × List PyStr
  | [], uniq, seen => (uniq, seen)
  | t :: rest, uniq, seen =>
    if pyLower t ∈ seen then dedupLoop rest uniq seen
    else dedupLoop rest (uniq ++ [t]) (seen ++ [pyLower t])

/-- Retry-round strict acceptance (source lines 383–390): every decoded
item is `str()`-converted (no `isinstance` filter here), stripped, and
checked against the word bound and `seen`; break at `n`. -/
def retryStrict (n : Nat) : List JVal → List PyStr → List PyStr →
    List PyStr × List PyStr
  | [], titles, seen => (titles, seen)
  | v :: rest, titles, seen =>
    let t := pyStripWs v.pyStr
    if t ≠ [] ∧ wordBound t ∧ pyLower t ∉ seen then
      let titles2 := titles ++ [t]
      let seen2 := seen ++ [pyLower t]
      if n ≤ titles2.length then (titles2, seen2)
      else retryStrict n rest titles2 seen2
    else retryStrict n rest titles seen

/-- Retry-round permissive acceptance (source lines 392–399): like the
first round but checked case-insensitively against `seen`. -/
def retryPermissive (n : Nat) : List PyStr → List PyStr → List PyStr →
    List PyStr × List PyStr
  | [], titles, seen => (titles, seen)
  | line :: rest, titles, seen =>
    let clean := cleanLine line
    if clean ≠ [] ∧ wordBound clean ∧ pyLower clean ∉ seen then
      let titles2 := titles ++ [clean]
      let seen2 := seen ++ [pyLower clean]
      if n ≤ titles2.length then (titles2, seen2)
      else retryPermissive n rest titles2 seen2
    else retryPermissive n rest titles seen

/-- The bounded retry loop (source lines 368–399); `fuel` is
`max_retries - retry_count`.  A failing retry call re-raises, exactly like
the unguarded `smart_api_call` at line 378. -/
def retryLoop (ctx : Ctx) (category event_type tone system_msg : PyStr)
    (num_titles max_tokens : Nat) (temperature : ℚ) (cost_mode : PyStr) :
    Nat → Sys → List PyStr → List PyStr → Nat →
    Except PyStr (List PyStr × List PyStr × Nat) × Sys
  | 0, st, titles, seen, rc => (.ok (titles, seen, rc), st)
  | fuel + 1, st, titles, seen, rc =>
    if titles.length < num_titles then
      let needed := num_titles - titles.length
      let retry_system := pyReplace system_msg
        ("EXACTLY ".data ++ natStr num_titles)
        ("EXACTLY ".data ++ natStr needed ++ " additional".data)
      let retry_user := "Generate ".data ++ natStr needed ++
        " more unique titles for ".data ++ category ++ " ".data ++ event_type ++
        " (".data ++ tone ++ "). Avoid these existing titles: ".data ++
        pyJoin ", ".data titles ++ ". Return JSON array only.".data
      match smart_api_call ctx st retry_system retry_user (max_tokens + 20)
          (temperature + 0.1) "gpt-3.5-turbo".data cost_mode with
      | (.error e, st2) => (.error e, st2)
      | (.ok result2, st2) =>
        let cleaned2 := clean_json_output result2
        let next :=
          match ctx.jparse cleaned2 with
          | .jlist items => retryStrict num_titles items titles seen
          | .jnonlist => (titles, seen)
          | .jerror _ => retryPermissive num_titles (permissiveLines result2) titles seen
        retryLoop ctx category event_type tone system_msg num_titles max_tokens
          temperature cost_mode fuel st2 next.1 next.2 (rc + 1)
    else (.ok (titles, seen, rc), st)

/-- The ten templated creative fallback titles (source lines 404–415). -/
def creative_fallbacks (category event_type tone : PyStr) : List PyStr :=
  [category ++ " Excellence Summit".data,
   "Future of ".data ++ category,
   tone ++ " ".data ++ event_type ++ " Experience".data,
   "Next-Gen ".data ++ category ++ " Forum".data,
   "Advanced ".data ++ event_type ++ " Series".data,
   category ++ " Innovation Hub".data,
   "Premier ".data ++ event_type ++ " Event".data,
   tone ++ " ".data ++ category ++ " Gathering".data,
   "Professional ".data ++ event_type ++ " Network".data,
   "Elite ".data ++ category ++ " Conference".data]

/-- The creative-fallback fill loop (source lines 417–424): candidates are
word-bound-checked and deduplicated against `seen`. -/
def fallbackLoop (n : Nat) : List PyStr → List PyStr → List PyStr → Bool →
    List PyStr × List PyStr × Bool
  | [], titles, seen, used => (titles, seen, used)
  | cand :: rest, titles, seen, used =>
    if titles.length < n then
      if pyLower cand ∉ seen ∧ wordBound cand then
        fallbackLoop n rest (titles ++ [cand]) (seen ++ [pyLower cand]) true
      else fallbackLoop n rest titles seen used
    else (titles, seen, used)

/-- `f"{category} {event_type} {i}"` — the numbered literal filler. -/
def fillerStr (category event_type : PyStr) (i : Nat) : PyStr :=
  category ++ " ".data ++ event_type ++ " ".data ++ natStr i

/-- The numbered-filler loop (source lines 426–433).  The Python `while`
always terminates because the filler names are pairwise distinct; the fuel
`n + seen.length` passed by `generate_titles` is enough for the loop to
fill up to `n` (proved in `fillerLoop_fills`), so the model never hits the
fuel-exhaustion branch. -/
def fillerLoop (category event_type : PyStr) (n : Nat) :
    Nat → Nat → List PyStr → List PyStr → Bool →
    List PyStr × List PyStr × Bool
  | 0, _, titles, seen, used => (titles, seen, used)
  | fuel + 1, i, titles, seen, used =>
    if titles.length < n then
      let filler := fillerStr category event_type i
      if pyLower filler ∈ seen then
        fillerLoop category event_type n fuel (i + 1) titles seen used
      else
        fillerLoop category event_type n fuel (i + 1)
          (titles ++ [filler]) (seen ++ [pyLower filler]) true
    else (titles, seen, used)

/-- The diagnostics dictionary of a successful `generate_titles` run
(source lines 443–470).  `time_taken` is the wall-clock difference,
modelled by the context constant `rt`; the `$`/`%`-formatted fields are
kept as their underlying numbers. -/
structure TitleLogsData where
  prompt_tokens : Nat
  completion_tokens : Nat
  total_tokens : Nat
  time_taken : ℚ
  estimated_cost : ℚ
  efficiency_score : ℚ
  model : PyStr
  system_prompt : PyStr
  user_prompt : PyStr
  retry_count : Nat
  titles_requested : Nat
  titles_generated : Nat
  cache_hit : Bool
  overall_efficiency : ℚ
  context_used : Bool
  warnings : Option PyStr

/-- The two shapes of the second return value of `generate_titles`: the
validation-failure dictionary `{"errors": …, "warnings": …}` or the full
diagnostics dictionary. -/
inductive TitleLogs where
  | invalid (errors warnings : List PyStr)
  | success (d : TitleLogsData)

/-- `generate_titles(category, event_type, tone, num_titles=5, context,
cost_mode="balanced")`. -/
def generate_titles (ctx : Ctx) (st : Sys) (category event_type tone : PyStr)
    (num_titles : Int) (context : PyStr) (cost_mode : PyStr) :
    Except PyStr (List PyStr × TitleLogs) × Sys :=
  let v := validate_inputs category event_type tone num_titles context
  if v.1 ≠ [] then (.ok ([], .invalid v.1 v.2), st)
  else
    let n := (max 1 (min num_titles 5)).toNat
    let context_str := titleContextStr context
    let P := titlePrompts category event_type tone n context_str cost_mode
    match smart_api_call ctx st P.system_msg P.user_msg P.max_tokens P.temperature
        "gpt-3.5-turbo".data cost_mode with
    | (.error e, st1) => (.error e, st1)
    | (.ok result, st1) =>
      let cleaned := clean_json_output result
      let parsed0 := parseRound0 (ctx.jparse cleaned) n result
      let dd := dedupLoop parsed0.1 [] []
      let titles1 := dd.1.take n
      let seen1 := dd.2
      let max_retries := if cost_mode = "premium".data then 2 else 1
      match retryLoop ctx category event_type tone P.system_msg n P.max_tokens
          P.temperature cost_mode max_retries st1 titles1 seen1 0 with
      | (.error e, st2) => (.error e, st2)
      | (.ok (titlesR, seenR, retry_count), st2) =>
        let titles2 := titlesR.take n
        let fb := fallbackLoop n (creative_fallbacks category event_type tone)
          titles2 seenR false
        let fl := fillerLoop category event_type n (n + fb.2.1.length) 1
          fb.1 fb.2.1 fb.2.2
        let titles4 := fl.1
        let fallback_used := fl.2.2
        let prompt_tokens := count_tokens P.system_msg + count_tokens P.user_msg
        let completion_tokens := count_tokens result
        let total_tokens := prompt_tokens + completion_tokens
        let cost := estimate_cost prompt_tokens completion_tokens "gpt-3.5-turbo".data
        let efficiency_score := if 0 < cost then (titles4.length : ℚ) / cost else 0
        let warn_list :=
          (if fallback_used then
            ["Some titles use creative fallbacks due to LLM output limits in ".data ++
              cost_mode ++ " mode.".data] else []) ++
          (match parsed0.2 with
           | some msg => ["JSON parsing issue: ".data ++ msg]
           | none => []) ++
          (if 0 < retry_count then
            ["Required ".data ++ natStr retry_count ++
              " retries to generate sufficient titles.".data] else [])
        let logs : TitleLogsData :=
          { prompt_tokens := prompt_tokens,
            completion_tokens := completion_tokens,
            total_tokens := total_tokens,
            time_taken := ctx.rt,
            estimated_cost := cost,
            efficiency_score := efficiency_score,
            model := "gpt-3.5-turbo".data,
            system_prompt := P.system_msg,
            user_prompt := P.user_msg,
            retry_count := retry_count,
            titles_requested := n,
            titles_generated := titles4.length,
            cache_hit := 0 < st2.analytics.cacheHits,
            overall_efficiency := get_efficiency_score st2.analytics,
            context_used := context ≠ [] ∧ pyStripWs context ≠ [],
            warnings := if warn_list ≠ [] then some (pyJoin "; ".data warn_list) else none }
        (.ok (titles4, .success logs), st2)

/-- The case-insensitive-uniqueness invariant carried through the title
pipeline: titles are pairwise distinct after lowering, and every accepted
title's lowering is in `seen`. -/
def LowerInv (titles seen : List PyStr) : Prop :=
  List.Pairwise (fun a b => pyLower a ≠ pyLower b) titles ∧
  ∀ t ∈ titles, pyLower t ∈ seen

/-- Recogniser for `pyLower (fillerStr category event_type j)` with
`j ≥ i`, used to bound the filler loop's skips. -/
def isFillerGe (category event_type : PyStr) (i : Nat) (x : PyStr) : Bool :=
  let pfx := pyLower (category ++ " ".data ++ event_type ++ " ".data)
  let rest := x.drop pfx.length
  pyStartsWith x pfx && decide (rest = natStr (digitsVal rest)) &&
    decide (i ≤ digitsVal rest)

/-! ## GenerationEngine — description generation -/

/-- Line 475: `max_chars = max(100, min(int(max_chars), 5000))`. -/
def clamp_chars (max_chars : Int) : Nat := (max 100 (min max_chars 5000)).toNat

/-- The `CRITICAL CONTEXT REQUIREMENTS` block of `generate_description`
(line 480). -/
def descContextStr (context : PyStr) : PyStr :=
  if context ≠ [] ∧ pyStripWs context ≠ [] then
    "\n\nCRITICAL CONTEXT REQUIREMENTS:\n- Incorporate the following specific context: ".data ++
    pyStripWs context ++
    "\n- Ensure the description reflects the unique aspects mentioned in the context\n- Use context details to create more targeted and relevant content\n- Make the description more specific and aligned with the provided context\n- Avoid generic descriptions that don\x27t reflect the context\n- Make the content highly relevant to the context provided".data
  else []

def desc_end_instruction : PyStr :=
  "Write in flowing paragraphs without bullet points or numbered lists. Use natural transitions between ideas. End with a strong call-to-action. No emojis or decorative symbols.".data

/-- The cost-mode-specific prompt construction of `generate_description`
(lines 483–504).  The Python token budgets are `int(max_chars/2.8) + 50`,
`int(max_chars/2.5) + 100` and `int(max_chars/2.6) + 75` in float
arithmetic; they are modelled by the exact rational floors `5*mc/14`,
`2*mc/5` and `5*mc/13`, which can differ from the float value by one on
ulp-boundary inputs — the budget feeds only the abstract cache digest
`Ctx.mkKey`, never a branch of the model. -/
def descPrompts (title category event_type tone : PyStr) (mc : Nat)
    (context_str : PyStr) (cost_mode : PyStr) : TitlePrompt :=
  if cost_mode = "economy".data then
    { system_msg := "Write compelling ".data ++ pyLower tone ++
        " description for \x27".data ++ title ++ "\x27 - ".data ++ category ++
        " ".data ++ event_type ++ ". EXACTLY ".data ++ natStr mc ++
        " characters. Include benefits and call-to-action. Use all available space. ".data ++
        desc_end_instruction ++ context_str,
      user_msg := "Description for: ".data ++ title ++ " (".data ++ category ++
        " ".data ++ event_type ++ ", ".data ++ tone ++ ") (MUST be ".data ++
        natStr mc ++ " characters)".data ++ context_str,
      max_tokens := 5 * mc / 14 + 50,
      temperature := 0.7 }
  else if cost_mode = "premium".data then
    { system_msg := "Expert copywriter. Write compelling ".data ++ natStr mc ++
        "-character description for \x27".data ++ title ++ "\x27 - ".data ++
        pyLower tone ++ " ".data ++ event_type ++ " in ".data ++ category ++
        ".\nStructure: Hook → Problem → Solution → Benefits → CTA\nTone: ".data ++
        pyLower tone ++
        ", persuasive, action-oriented\nTARGET: Use the full ".data ++ natStr mc ++
        " characters available. Do not stop early. Fill all space. ".data ++
        desc_end_instruction ++ context_str,
      user_msg := "Write description for \x27".data ++ title ++ "\x27 (".data ++
        category ++ " ".data ++ event_type ++ ", ".data ++ tone ++
        "). MUST be as close as possible to ".data ++ natStr mc ++
        " characters.".data ++ context_str,
      max_tokens := 2 * mc / 5 + 100,
      temperature := 0.75 }
  else
    { system_msg := "Professional copywriter. Create engaging ".data ++
        pyLower tone ++ " description for \x27".data ++ title ++ "\x27 - ".data ++
        category ++ " ".data ++ event_type ++ ".\nLength: EXACTLY ".data ++
        natStr mc ++
        " characters (use all available space, do not stop early)\nInclude: value proposition, benefits, call-to-action\nStyle: ".data ++
        pyLower tone ++ ", compelling".data ++ context_str ++ "\n".data ++
        desc_end_instruction,
      user_msg := "Write description: \x27".data ++ title ++ "\x27 (".data ++
        category ++ " ".data ++ event_type ++ ", ".data ++ tone ++
        "). Target ".data ++ natStr mc ++
        " chars. Use all available space.".data ++ context_str,
      max_tokens := 5 * mc / 13 + 75,
      temperature := 0.72 }

/-- `description[:description.rfind(\x27.\x27)+1]` for a text containing a
period: drop the characters after the last period. -/
def dropAfterLastPeriod (d : PyStr) : PyStr :=
  (d.reverse.dropWhile (fun c => c != '.')).reverse

/-- The truncation step, lines 533–536: only applied when the text
exceeds the budget; back up to the last period of the truncated window
when one exists. -/
def truncate_description (mc : Nat) (d : PyStr) : PyStr :=
  if mc < d.length then
    let cut := d.take mc
    if '.' ∈ cut then dropAfterLastPeriod cut else cut
  else d

/-- The `try:` block of `generate_description` (lines 508–518): the
primary call, then the conditional extension call (`len <
int(0.75*max_chars)` — `0.75` is binary-exact, so the float condition is
exactly `3*mc/4` — and not economy mode), guarded by truthiness and the
20-character prefix echo check.  A raise in either call aborts the
block. -/
def desc_raw (ctx : Ctx) (st : Sys) (system_msg user_msg : PyStr)
    (max_tokens : Nat) (temperature : ℚ) (mc : Nat) (cost_mode : PyStr) :
    Except PyStr PyStr × Sys :=
  match smart_api_call ctx st system_msg user_msg max_tokens temperature
      "gpt-3.5-turbo".data cost_mode with
  | (.error e, st1) => (.error e, st1)
  | (.ok description, st1) =>
    if description.length < 3 * mc / 4 ∧ cost_mode ≠ "economy".data then
      let remaining := mc - description.length
      let extend_system := "You are extending an event description. Add ".data ++
        natStr remaining ++
        " more characters to make it more detailed and compelling.".data
      let extend_user := "Current description: ".data ++ description ++
        "\n\nExpand this by adding more details, benefits, or call-to-action to reach closer to ".data ++
        natStr mc ++ " total characters.".data
      match smart_api_call ctx st1 extend_system extend_user
          (2 * remaining / 5 + 30) temperature "gpt-3.5-turbo".data cost_mode with
      | (.error e, st2) => (.error e, st2)
      | (.ok extension, st2) =>
        if extension ≠ [] ∧
            pyStartsWith (pyLower extension) ((pyLower description).take 20) = false then
          (.ok (description ++ " ".data ++ extension), st2)
        else (.ok description, st2)
    else (.ok description, st1)

/-- The diagnostics dictionary of a successful `generate_description`
run (lines 538–558).  `completion_tokens`, `too_short` and
`char_efficiency` are computed from the pre-truncation text;
`cost_per_char` and `target_utilization` from the returned one.  The
`$`/`%`-formatted fields are kept as their underlying numbers.
`too_short` models Python `len < int(0.6*max_chars)` as `len < 3*mc/5`;
`0.6` is not binary-exact, so the float flag can differ on multiples of
5 — it is a diagnostic only. -/
structure DescLogsData where
  prompt_tokens : Nat
  completion_tokens : Nat
  total_tokens : Nat
  time_taken : ℚ
  estimated_cost : ℚ
  cost_per_char : Option ℚ
  char_efficiency : ℚ
  target_utilization : ℚ
  cost_mode : PyStr
  too_short : Prop
  category : PyStr
  event_type : PyStr
  tone : PyStr
  context : PyStr
  max_chars : Nat
  model : PyStr
  system_prompt : PyStr
  user_prompt : PyStr
  context_used : Prop

/-- Result channel of `generate_description`: the `except` branch
returns `("", {"error": ...})`. -/
inductive DescLogs where
  | err (msg : PyStr)
  | success (d : DescLogsData)

/-- `generate_description(title, category, event_type, tone, context,
max_chars, cost_mode)` (lines 474–560). -/
def generate_description (ctx : Ctx) (st : Sys)
    (title category event_type tone : PyStr) (context : PyStr)
    (max_chars : Int) (cost_mode : PyStr) : (PyStr × DescLogs) × Sys :=
  let mc := clamp_chars max_chars
  let context_str := descContextStr context
  let P := descPrompts title category event_type tone mc context_str cost_mode
  match desc_raw ctx st P.system_msg P.user_msg P.max_tokens P.temperature mc
      cost_mode with
  | (.error e, st1) => (([], .err e), st1)
  | (.ok description, st1) =>
    let prompt_tokens := count_tokens P.system_msg + count_tokens P.user_msg
    let completion_tokens := count_tokens description
    let total_tokens := prompt_tokens + completion_tokens
    let cost := estimate_cost prompt_tokens completion_tokens "gpt-3.5-turbo".data
    let too_short := description.length < 3 * mc / 5
    let char_efficiency := if 0 < cost then (description.length : ℚ) / cost else 0
    let final := truncate_description mc description
    ((final,
      .success
        { prompt_tokens := prompt_tokens,
          completion_tokens := completion_tokens,
          total_tokens := total_tokens,
          time_taken := ctx.rt,
          estimated_cost := cost,
          cost_per_char := if final ≠ [] then some (cost / (final.length : ℚ))
            else none,
          char_efficiency := char_efficiency,
          target_utilization := (final.length : ℚ) / (mc : ℚ) * 100,
          cost_mode := cost_mode,
          too_short := too_short,
          category := category,
          event_type := event_type,
          tone := tone,
          context := context,
          max_chars := mc,
          model := "gpt-3.5-turbo".data,
          system_prompt := P.system_msg,
          user_prompt := P.user_msg,
          context_used := context ≠ [] ∧ pyStripWs context ≠ [] }), st1)

/-- Concrete context for the C4 witness: a premium-mode run whose single
network answer is 112 characters long (50 `a`s, a period, a space, 60
`b`s), exceeding the clamped budget 100 and containing a period inside
the truncated window. -/
def c4Response : PyStr :=
  List.replicate 50 'a' ++ ". ".data ++ List.replicate 60 'b'

def c4Ctx : Ctx :=
  { mkKey := fun _ _ mt _ _ => natStr mt,
    jparse := fun _ => JsonOut.jerror [],
    oracle := fun _ => .ok c4Response,
    now := 0,
    rt := 0 }

def c4Sys : Sys :=
  { cache := SmartCache.mk0 48, analytics := Metrics.init, netCalls := 0 }

/-! ## ==================== THEOREMS ==================== -/

/-! ### C1 — efficiency score weights -/

/-- C1 counterexample: on `mWeights` (one request, cost 0.005, zero
latency) the code returns 55 while the claimed weighting gives 50: the
code pairs cost efficiency with weight 0.20 and speed efficiency with
0.25, not 0.25/0.20 as claimed. -/
theorem c1_weights_counterexample :
    get_efficiency_score mWeights = 55 ∧ claimed_efficiency mWeights = 50 ∧
    get_efficiency_score mWeights ≠ claimed_efficiency mWeights := by
  have h1 : get_efficiency_score mWeights = 55 := by
    simp only [get_efficiency_score, mWeights, List.zip, List.zipWith, List.foldl]
    norm_num [min_def, max_def]
  have h2 : claimed_efficiency mWeights = 50 := by
    simp only [claimed_efficiency, cacheEffSpec, costEffSpec, speedEffSpec, errorEffSpec,
      tokenEffSpec, mWeights]
    norm_num [min_def, max_def]
  exact ⟨h1, h2, by rw [h1, h2]; norm_num⟩

/-- C1 (amended): for every metrics state with `totalRequests > 0`,
`get_efficiency_score` equals 100 times the weighted sum of the five clamped
sub-scores with weights cache 0.25, cost 0.20, speed 0.25, error 0.20,
token 0.10 (cost and speed weights swapped relative to the claim), and it
returns 0 when `totalRequests = 0`. -/
theorem c1_efficiency_amended (m : Metrics) :
    (0 < m.totalRequests → get_efficiency_score m = amended_efficiency m) ∧
    (m.totalRequests = 0 → get_efficiency_score m = 0) := by
  constructor
  · intro h
    have h0 : m.totalRequests ≠ 0 := Nat.pos_iff_ne_zero.mp h
    simp only [get_efficiency_score, amended_efficiency, cacheEffSpec, costEffSpec,
      speedEffSpec, errorEffSpec, tokenEffSpec, if_neg h0, if_pos h,
      List.zip, List.zipWith, List.foldl]
    ring
  · intro h
    simp [get_efficiency_score, h]

/-- C1 witness: the amended equation evaluated at `mWeights`, and the
zero-requests case at the initial state. -/
theorem c1_efficiency_amended_witness :
    (0 < mWeights.totalRequests ∧ get_efficiency_score mWeights = amended_efficiency mWeights) ∧
    (Metrics.init.totalRequests = 0 ∧ get_efficiency_score Metrics.init = 0) :=
  ⟨⟨by decide, (c1_efficiency_amended mWeights).1 (by decide)⟩,
   ⟨by decide, (c1_efficiency_amended Metrics.init).2 (by decide)⟩⟩

/-! ### C3 — record_request counters and running means -/

/-- Normal form of one `record_request` step (shared by the C3/C9 proofs). -/
theorem record_request_eq (m : Metrics) (cost : ℚ) (tokens : Nat) (rt : ℚ)
    (fc er : Bool) :
    record_request m cost tokens rt fc er =
      { totalRequests := m.totalRequests + 1,
        cacheHits := if fc then m.cacheHits + 1 else m.cacheHits,
        totalCost := if fc then m.totalCost else m.totalCost + cost,
        totalTokens := if fc then m.totalTokens else m.totalTokens + tokens,
        avgResponseTime :=
          (m.avgResponseTime * ((((m.totalRequests + 1 : ℕ)) : ℚ) - 1) + rt) /
            (((m.totalRequests + 1 : ℕ)) : ℚ),
        errorRate :=
          if er then
            (m.errorRate * ((((m.totalRequests + 1 : ℕ)) : ℚ) - 1) + 1) /
              (((m.totalRequests + 1 : ℕ)) : ℚ)
          else m.errorRate } := by
  cases fc <;> cases er <;> rfl

/-- C3 counterexample: starting from one recorded request with
`errorRate = 1`, recording a non-error request leaves `errorRate` at 1,
whereas the claimed incremental mean over the 0/1 indicator would give
1/2.  The code updates `error_rate` only when `error` is true. -/
theorem c3_error_rate_counterexample :
    (record_request mOneError 0 0 0 false false).errorRate = 1 ∧
    (mOneError.errorRate * (mOneError.totalRequests : ℚ) + 0) /
      ((mOneError.totalRequests : ℚ) + 1) = 1 / 2 ∧
    (record_request mOneError 0 0 0 false false).errorRate ≠
      (mOneError.errorRate * (mOneError.totalRequests : ℚ) + 0) /
        ((mOneError.totalRequests : ℚ) + 1) := by
  have h1 : (record_request mOneError 0 0 0 false false).errorRate = 1 := by
    simp [record_request, mOneError]
  have h2 : (mOneError.errorRate * (mOneError.totalRequests : ℚ) + 0) /
      ((mOneError.totalRequests : ℚ) + 1) = 1 / 2 := by
    simp only [mOneError]
    norm_num
  exact ⟨h1, h2, by rw [h1, h2]; norm_num⟩

/-- C3 (amended): every `record_request` call increments `totalRequests`
by one and updates `avgResponseTime` by the incremental-mean formula
`avg + (rt - avg)/totalRequests`; `errorRate` is updated by the
incremental mean of the 0/1 indicator only when `error` is true and is
left unchanged on non-error requests. -/
theorem c3_record_request_amended (m : Metrics) (cost : ℚ) (tokens : Nat)
    (rt : ℚ) (from_cache error : Bool) :
    (record_request m cost tokens rt from_cache error).totalRequests = m.totalRequests + 1 ∧
    (record_request m cost tokens rt from_cache error).avgResponseTime =
      m.avgResponseTime + (rt - m.avgResponseTime) / ((m.totalRequests : ℚ) + 1) ∧
    (record_request m cost tokens rt from_cache error).errorRate =
      (if error then
        (m.errorRate * (m.totalRequests : ℚ) + 1) / ((m.totalRequests : ℚ) + 1)
       else m.errorRate) := by
  have hden : ((m.totalRequests : ℚ) + 1) ≠ 0 := by positivity
  rw [record_request_eq]
  refine ⟨rfl, ?_, ?_⟩
  · show (m.avgResponseTime * ((((m.totalRequests + 1 : ℕ)) : ℚ) - 1) + rt) /
        (((m.totalRequests + 1 : ℕ)) : ℚ) = _
    push_cast
    field_simp
    ring
  · cases error
    · rfl
    · show (m.errorRate * ((((m.totalRequests + 1 : ℕ)) : ℚ) - 1) + 1) /
          (((m.totalRequests + 1 : ℕ)) : ℚ) = _
      rw [if_pos rfl]
      push_cast
      ring_nf

/-! ### C9 — cache-hit recording leaves cost and tokens unchanged -/

/-- C9: `record_request` with `from_cache = true` leaves `totalCost` and
`totalTokens` unchanged; it increments `totalRequests` and `cacheHits` by
one, updates the running response-time mean, and updates `errorRate` only
on error. -/
theorem c9_from_cache_frame (m : Metrics) (cost : ℚ) (tokens : Nat)
    (rt : ℚ) (error : Bool) :
    (record_request m cost tokens rt true error).totalCost = m.totalCost ∧
    (record_request m cost tokens rt true error).totalTokens = m.totalTokens ∧
    (record_request m cost tokens rt true error).totalRequests = m.totalRequests + 1 ∧
    (record_request m cost tokens rt true error).cacheHits = m.cacheHits + 1 ∧
    (record_request m cost tokens rt true error).avgResponseTime =
      (m.avgResponseTime * (m.totalRequests : ℚ) + rt) / ((m.totalRequests : ℚ) + 1) ∧
    (record_request m cost tokens rt true error).errorRate =
      (if error then
        (m.errorRate * (m.totalRequests : ℚ) + 1) / ((m.totalRequests : ℚ) + 1)
       else m.errorRate) := by
  rw [record_request_eq]
  refine ⟨rfl, rfl, rfl, rfl, ?_, ?_⟩
  · show (m.avgResponseTime * ((((m.totalRequests + 1 : ℕ)) : ℚ) - 1) + rt) /
        (((m.totalRequests + 1 : ℕ)) : ℚ) = _
    push_cast
    ring_nf
  · cases error
    · rfl
    · show (m.errorRate * ((((m.totalRequests + 1 : ℕ)) : ℚ) - 1) + 1) /
          (((m.totalRequests + 1 : ℕ)) : ℚ) = _
      rw [if_pos rfl]
      push_cast
      ring_nf

/-! ### C5 — count_tokens -/

/-- C5 counterexample: on `"abcd"` (4 characters, 1 word) the code gives
`max(1, int(4/3.5)) = 1`, while the claimed `max(1, ceil(4/3.5)) = 2`:
`int()` truncates, it does not round up. -/
theorem c5_count_tokens_counterexample :
    count_tokens "abcd".data = 1 ∧
    max (pySplitWs "abcd".data).length (⌈(("abcd".data : PyStr).length : ℚ) / (7 / 2)⌉₊) = 2 ∧
    count_tokens "abcd".data ≠
      max (pySplitWs "abcd".data).length (⌈(("abcd".data : PyStr).length : ℚ) / (7 / 2)⌉₊) := by
  have hw : (pySplitWs "abcd".data).length = 1 := by decide
  have hl : (("abcd".data : PyStr).length : ℚ) = 4 := by decide
  have hceil : (⌈((4 : ℚ)) / (7 / 2)⌉₊ : ℕ) = 2 := by
    rw [show ((4 : ℚ)) / (7 / 2) = 8 / 7 by norm_num]
    rw [Nat.ceil_eq_iff (by norm_num)]
    norm_num
  have h1 : count_tokens "abcd".data = 1 := by decide
  have h2 : max (pySplitWs "abcd".data).length
      (⌈(("abcd".data : PyStr).length : ℚ) / (7 / 2)⌉₊) = 2 := by
    rw [hw, hl, hceil]
    decide
  exact ⟨h1, h2, by rw [h1, h2]; norm_num⟩

/-- C5 (amended): for every text, `count_tokens` equals
`max(word_count, floor(char_count / 3.5))` — the floor, not the ceiling,
of the character estimate. -/
theorem c5_count_tokens_amended (text : PyStr) :
    count_tokens text =
      max (pySplitWs text).length (⌊((text.length : ℚ) / (7 / 2) : ℚ)⌋₊) := by
  have h1 : ((text.length : ℚ) / (7 / 2) : ℚ) = ((2 * text.length : ℕ) : ℚ) / ((7 : ℕ) : ℚ) := by
    push_cast
    ring
  have h2 : ⌊((text.length : ℚ) / (7 / 2) : ℚ)⌋₊ = (2 * text.length) / 7 := by
    rw [h1, Nat.floor_div_nat, Nat.floor_natCast]
  rw [count_tokens, h2]

/-! ### Cache structural lemmas -/

theorem assocFind_eq_none (l : List (PyStr × CacheEntry)) (k : PyStr)
    (h : ∀ p ∈ l, p.1 ≠ k) : assocFind l k = none := by
  induction l with
  | nil => rfl
  | cons p rest ih =>
    simp only [assocFind]
    rw [if_neg (h p (by simp))]
    exact ih (fun q hq => h q (by simp [hq]))

theorem assocFind_append_left_none (l₁ l₂ : List (PyStr × CacheEntry)) (k : PyStr)
    (h : assocFind l₁ k = none) : assocFind (l₁ ++ l₂) k = assocFind l₂ k := by
  induction l₁ with
  | nil => rfl
  | cons p rest ih =>
    simp only [assocFind] at h ⊢
    by_cases hp : p.1 = k
    · rw [if_pos hp] at h
      exact absurd h (by simp)
    · rw [if_neg hp] at h ⊢
      exact ih h

theorem dictSet_of_none (l : List (PyStr × CacheEntry)) (k : PyStr) (d : CacheEntry)
    (h : assocFind l k = none) : dictSet l k d = l ++ [(k, d)] := by
  rw [dictSet, h]
  simp

theorem dictSet_length_le (l : List (PyStr × CacheEntry)) (k : PyStr) (d : CacheEntry) :
    (dictSet l k d).length ≤ l.length + 1 := by
  rw [dictSet]
  split
  · simp
  · simp

theorem dictDel_length_le (l : List (PyStr × CacheEntry)) (k : PyStr) :
    (dictDel l k).length ≤ l.length :=
  List.length_filter_le _ _

theorem dictDel_length_lt (l : List (PyStr × CacheEntry)) (k : PyStr)
    (p : PyStr × CacheEntry) (hp : p ∈ l) (hk : p.1 = k) :
    (dictDel l k).length < l.length := by
  induction l with
  | nil => cases hp
  | cons q rest ih =>
    rw [dictDel, List.filter_cons]
    rcases List.mem_cons.mp hp with rfl | hp'
    · rw [if_neg (by simp [hk])]
      have := List.length_filter_le (fun r => decide (r.1 ≠ k)) rest
      simp only [List.length_cons]
      omega
    · have hlt := ih hp'
      rw [dictDel] at hlt
      split
      · simp only [List.length_cons]
        omega
      · simp only [List.length_cons]
        omega

theorem dictDel_cons_fresh (p : PyStr × CacheEntry) (l : List (PyStr × CacheEntry))
    (h : ∀ q ∈ l, q.1 ≠ p.1) : dictDel (p :: l) p.1 = l := by
  rw [dictDel, List.filter_cons, if_neg (by simp)]
  rw [show l.filter (fun r => decide (r.1 ≠ p.1)) = l from
    List.filter_eq_self.mpr (fun q hq => by simpa using h q hq)]

theorem foldl_oldest_keep (acc : PyStr × CacheEntry) (l : List (PyStr × CacheEntry))
    (h : ∀ q ∈ l, ¬ q.2.timestamp < acc.2.timestamp) :
    l.foldl (fun a q => if q.2.timestamp < a.2.timestamp then q else a) acc = acc := by
  induction l with
  | nil => rfl
  | cons q rest ih =>
    rw [List.foldl_cons, if_neg (h q (by simp))]
    exact ih (fun r hr => h r (by simp [hr]))

theorem oldestEntry_head (p : PyStr × CacheEntry) (l : List (PyStr × CacheEntry))
    (h : ∀ q ∈ l, p.2.timestamp ≤ q.2.timestamp) :
    oldestEntry (p :: l) = some p := by
  rw [oldestEntry]
  rw [foldl_oldest_keep p l (fun q hq => not_lt.mpr (h q hq))]

theorem foldl_oldest_mem (l : List (PyStr × CacheEntry)) (acc : PyStr × CacheEntry) :
    l.foldl (fun a q => if q.2.timestamp < a.2.timestamp then q else a) acc ∈ acc :: l := by
  induction l generalizing acc with
  | nil => simp
  | cons q rest ih =>
    rw [List.foldl_cons]
    rcases List.mem_cons.mp (ih (if q.2.timestamp < acc.2.timestamp then q else acc)) with h | h
    · rw [h]
      split
      · simp
      · simp
    · simp [h]

theorem oldestEntry_mem (l : List (PyStr × CacheEntry)) (p : PyStr × CacheEntry)
    (h : oldestEntry l = some p) : p ∈ l := by
  cases l with
  | nil => cases h
  | cons q rest =>
    rw [oldestEntry] at h
    have := foldl_oldest_mem rest q
    rw [Option.some_inj.mp h] at this
    exact this

theorem getPersistent_preserves (c : CacheSt) (now : ℚ) (key : PyStr)
    (h : c.memoryCache.length ≤ c.max_memory_items) :
    (getPersistent c now key).2.memoryCache.length ≤ c.max_memory_items ∧
    (getPersistent c now key).2.max_memory_items = c.max_memory_items := by
  rw [getPersistent]
  cases hf : assocFind c.persistent key with
  | none => exact ⟨h, rfl⟩
  | some data =>
    dsimp only
    by_cases hfresh : now - data.timestamp < c.ttl
    · rw [if_pos hfresh]
      by_cases hroom : c.memoryCache.length < c.max_memory_items
      · rw [if_pos hroom]
        constructor
        · simp only [List.length_append, List.length_cons, List.length_nil]
          omega
        · rfl
      · rw [if_neg hroom]
        exact ⟨h, rfl⟩
    · rw [if_neg hfresh]
      exact ⟨h, rfl⟩

theorem get_preserves (c : CacheSt) (now : ℚ) (key : PyStr)
    (h : c.memoryCache.length ≤ c.max_memory_items) :
    (SmartCache.get c now key).2.memoryCache.length ≤ c.max_memory_items ∧
    (SmartCache.get c now key).2.max_memory_items = c.max_memory_items := by
  rw [SmartCache.get]
  cases hf : assocFind c.memoryCache key with
  | none => exact getPersistent_preserves c now key h
  | some data =>
    dsimp only
    by_cases hfresh : now - data.timestamp < c.ttl
    · rw [if_pos hfresh]
      exact ⟨h, rfl⟩
    · rw [if_neg hfresh]
      exact getPersistent_preserves _ now key
        (le_trans (dictDel_length_le c.memoryCache key) h)

theorem set_preserves (c : CacheSt) (now : ℚ) (key content : PyStr)
    (hpos : 0 < c.max_memory_items)
    (h : c.memoryCache.length ≤ c.max_memory_items) :
    (SmartCache.set c now key content).memoryCache.length ≤ c.max_memory_items ∧
    (SmartCache.set c now key content).max_memory_items = c.max_memory_items := by
  simp only [SmartCache.set]
  refine ⟨?_, trivial⟩
  by_cases hfull : c.max_memory_items ≤ c.memoryCache.length
  · rw [if_pos hfull]
    have hne : c.memoryCache ≠ [] := by
      intro hnil
      rw [hnil] at hfull
      simp only [List.length_nil] at hfull
      omega
    obtain ⟨q, rest, hql⟩ := List.exists_cons_of_ne_nil hne
    rw [hql, oldestEntry]
    dsimp only
    have hmem := foldl_oldest_mem rest q
    set p := rest.foldl (fun a r => if r.2.timestamp < a.2.timestamp then r else a) q with hp
    have hplen : (dictDel (q :: rest) p.1).length < (q :: rest).length :=
      dictDel_length_lt (q :: rest) p.1 p hmem rfl
    have hds := dictSet_length_le (dictDel (q :: rest) p.1) key ⟨content, now⟩
    rw [hql] at h
    omega
  · rw [if_neg hfull]
    have hds := dictSet_length_le c.memoryCache key ⟨content, now⟩
    omega

theorem applyOps_capacity (ops : List CacheOp) (c : CacheSt)
    (hpos : 0 < c.max_memory_items)
    (h : c.memoryCache.length ≤ c.max_memory_items) :
    (applyOps c ops).memoryCache.length ≤ (applyOps c ops).max_memory_items ∧
    (applyOps c ops).max_memory_items = c.max_memory_items := by
  induction ops generalizing c with
  | nil => exact ⟨h, rfl⟩
  | cons op rest ih =>
    rw [applyOps, List.foldl_cons]
    have hstep : (applyOp c op).memoryCache.length ≤ c.max_memory_items ∧
        (applyOp c op).max_memory_items = c.max_memory_items := by
      cases op with
      | opGet now key => exact get_preserves c now key h
      | opSet now key content => exact set_preserves c now key content hpos h
    have := ih (applyOp c op) (by rw [hstep.2]; exact hpos) (by rw [hstep.2]; exact hstep.1)
    rw [applyOps] at this
    exact ⟨this.1, by rw [this.2, hstep.2]⟩

theorem insertAll_fresh (l : List (PyStr × PyStr × ℚ)) :
    ∀ c : CacheSt,
    (∀ e ∈ l, assocFind c.memoryCache e.1 = none ∧ assocFind c.persistent e.1 = none) →
    (l.map (·.1)).Nodup →
    c.memoryCache.length + l.length ≤ c.max_memory_items →
    (insertAll c l).memoryCache = c.memoryCache ++ l.map toCacheEntry ∧
    (insertAll c l).persistent = c.persistent ++ l.map toCacheEntry ∧
    (insertAll c l).ttl = c.ttl ∧
    (insertAll c l).max_memory_items = c.max_memory_items := by
  induction l with
  | nil =>
    intro c _ _ _
    refine ⟨by simp [insertAll], by simp [insertAll], rfl, rfl⟩
  | cons e rest ih =>
    intro c hfresh hnodup hlen
    have hnotfull : ¬ c.max_memory_items ≤ c.memoryCache.length := by
      simp only [List.length_cons] at hlen
      omega
    have hset : SmartCache.set c e.2.2 e.1 e.2.1 =
        { c with memoryCache := c.memoryCache ++ [toCacheEntry e],
                 persistent := c.persistent ++ [toCacheEntry e] } := by
      simp only [SmartCache.set, if_neg hnotfull]
      rw [dictSet_of_none _ _ _ (hfresh e (by simp)).1,
          dictSet_of_none _ _ _ (hfresh e (by simp)).2]
      rfl
    have hkey : ∀ e' ∈ rest, e'.1 ≠ e.1 := by
      intro e' he' heq
      have : e.1 ∉ rest.map (fun p => p.1) := (List.nodup_cons.mp (by simpa using hnodup)).1
      exact this (List.mem_map.mpr ⟨e', he', heq⟩)
    have hfresh' : ∀ e' ∈ rest,
        assocFind (c.memoryCache ++ [toCacheEntry e]) e'.1 = none ∧
        assocFind (c.persistent ++ [toCacheEntry e]) e'.1 = none := by
      intro e' he'
      have htail : assocFind [toCacheEntry e] e'.1 = none :=
        assocFind_eq_none _ _ (by
          intro p hp
          rcases List.mem_singleton.mp hp with rfl
          exact fun hc => hkey e' he' hc.symm)
      exact ⟨by rw [assocFind_append_left_none _ _ _ (hfresh e' (by simp [he'])).1, htail],
             by rw [assocFind_append_left_none _ _ _ (hfresh e' (by simp [he'])).2, htail]⟩
    have hrec := ih { c with memoryCache := c.memoryCache ++ [toCacheEntry e],
                             persistent := c.persistent ++ [toCacheEntry e] }
      hfresh' (by simpa using (List.nodup_cons.mp (by simpa using hnodup)).2)
      (by simp only [List.length_append, List.length_cons, List.length_nil] at hlen ⊢; omega)
    have hstep : insertAll c (e :: rest) =
        insertAll { c with memoryCache := c.memoryCache ++ [toCacheEntry e],
                           persistent := c.persistent ++ [toCacheEntry e] } rest := by
      rw [insertAll, insertAll]
      simp only [List.foldl_cons]
      rw [hset]
    rw [hstep]
    refine ⟨?_, ?_, hrec.2.2.1, hrec.2.2.2⟩
    · rw [hrec.1]
      simp [List.append_assoc]
    · rw [hrec.2.1]
      simp [List.append_assoc]

/-! ### C6 — persistent-layer reads -/

/-- C6 counterexample: with the memory layer exactly at capacity
(`fullCache`, 100 entries), `get` of the persistent-only, unexpired key
`"extra"` returns the stored content but does not promote it into the
memory layer and evicts nothing — the cache state is returned unchanged,
contradicting the claimed promotion (subject to capacity eviction). -/
theorem c6_no_promotion_counterexample :
    (SmartCache.get fullCache 1 "extra".data).1 = some "stored".data ∧
    (SmartCache.get fullCache 1 "extra".data).2 = fullCache ∧
    assocFind (SmartCache.get fullCache 1 "extra".data).2.memoryCache "extra".data = none := by
  have hmem : assocFind fullCache.memoryCache "extra".data = none := by rfl
  have hper : assocFind fullCache.persistent "extra".data = some ⟨"stored".data, 0⟩ := by rfl
  have hfresh : (1 : ℚ) - (0 : ℚ) < fullCache.ttl := by
    show (1 : ℚ) - (0 : ℚ) < 48
    norm_num
  have hroom : ¬ fullCache.memoryCache.length < fullCache.max_memory_items := by
    show ¬ ((List.range 100).map
      (fun i => (List.replicate i 'a', (⟨['v'], 0⟩ : CacheEntry)))).length < 100
    simp
  have hget : SmartCache.get fullCache 1 "extra".data = (some "stored".data, fullCache) := by
    rw [SmartCache.get, hmem]
    show getPersistent fullCache 1 "extra".data = _
    rw [getPersistent, hper]
    dsimp only
    rw [if_pos hfresh, if_neg hroom]
  exact ⟨by rw [hget], by rw [hget], by rw [hget]; exact hmem⟩

/-- C6 (amended): for a key absent from the memory layer — if the key is
present and unexpired in the persistent layer, `get` returns the stored
content but promotes the entry into the memory layer only when that layer
is strictly below capacity; at capacity the state is returned unchanged
(no promotion, no eviction).  If the persistent entry is expired, `get`
deletes the persistent record and returns absent; if it is missing, `get`
returns absent with the state unchanged. -/
theorem c6_get_persistent_amended (c : CacheSt) (now : ℚ) (key : PyStr)
    (hmem : assocFind c.memoryCache key = none) :
    (∀ data, assocFind c.persistent key = some data →
      ((now - data.timestamp < c.ttl →
        ((c.memoryCache.length < c.max_memory_items →
           SmartCache.get c now key =
             (some data.content,
              { c with memoryCache := c.memoryCache ++ [(key, data)] })) ∧
         (¬ c.memoryCache.length < c.max_memory_items →
           SmartCache.get c now key = (some data.content, c)))) ∧
       (¬ now - data.timestamp < c.ttl →
         SmartCache.get c now key =
           (none, { c with persistent := dictDel c.persistent key })))) ∧
    (assocFind c.persistent key = none → SmartCache.get c now key = (none, c)) := by
  have hg : SmartCache.get c now key = getPersistent c now key := by
    rw [SmartCache.get, hmem]
  constructor
  · intro data hdata
    constructor
    · intro hfresh
      constructor
      · intro hroom
        rw [hg, getPersistent, hdata]
        dsimp only
        rw [if_pos hfresh, if_pos hroom]
      · intro hroom
        rw [hg, getPersistent, hdata]
        dsimp only
        rw [if_pos hfresh, if_neg hroom]
    · intro hexp
      rw [hg, getPersistent, hdata]
      dsimp only
      rw [if_neg hexp]
  · intro hnone
    rw [hg, getPersistent, hnone]

/-- C6 witness: on `roomyCache` (one memory entry, persistent-only key
`"extra"` stored at time 0, queried at time 1) the amended theorem yields
the promotion into the memory layer. -/
theorem c6_get_persistent_amended_witness :
    SmartCache.get roomyCache 1 "extra".data =
      (some "stored".data,
       { roomyCache with
          memoryCache := roomyCache.memoryCache ++ [("extra".data, ⟨"stored".data, 0⟩)] }) := by
  have h := ((c6_get_persistent_amended roomyCache 1 "extra".data rfl).1
    ⟨"stored".data, 0⟩ rfl).1
  exact (h (by show (1 : ℚ) - (0 : ℚ) < 48; norm_num)).1 (by
    show roomyCache.memoryCache.length < roomyCache.max_memory_items
    decide)

/-! ### C7 — eviction of the oldest-inserted key and the capacity bound -/

/-- C7: (a) inserting `capacity + 1 = 101` entries with pairwise-distinct
keys and non-decreasing wall-clock times into a fresh cache leaves exactly
100 entries in the memory layer; the missing key is the single
oldest-inserted (first) one, which stays retrievable from the persistent
layer while unexpired.  (b) After any sequence of `get`/`set` operations
on a fresh cache the memory layer never holds more than 100 entries. -/
theorem c7_eviction_and_capacity :
    (∀ (e : PyStr × PyStr × ℚ) (rest : List (PyStr × PyStr × ℚ)),
      rest.length = 100 →
      ((e :: rest).map (fun p => p.1)).Nodup →
      ((e :: rest).map (fun p => p.2.2)).Pairwise (· ≤ ·) →
      (insertAll (SmartCache.mk0 48) (e :: rest)).memoryCache = rest.map toCacheEntry ∧
      (insertAll (SmartCache.mk0 48) (e :: rest)).memoryCache.length = 100 ∧
      assocFind (insertAll (SmartCache.mk0 48) (e :: rest)).memoryCache e.1 = none ∧
      assocFind (insertAll (SmartCache.mk0 48) (e :: rest)).persistent e.1 =
        some ⟨e.2.1, e.2.2⟩ ∧
      (∀ now : ℚ, now - e.2.2 < 48 →
        (SmartCache.get (insertAll (SmartCache.mk0 48) (e :: rest)) now e.1).1 =
          some e.2.1)) ∧
    (∀ ops : List CacheOp,
      (applyOps (SmartCache.mk0 48) ops).memoryCache.length ≤ 100) := by
  constructor
  · intro e rest hlen hnodup htimes
    have hnodup2 : (e.1 :: rest.map (fun p => p.1)).Nodup := by
      simpa only [List.map_cons] using hnodup
    have htimes2 : List.Pairwise (· ≤ ·) (e.2.2 :: rest.map (fun p => p.2.2)) := by
      simpa only [List.map_cons] using htimes
    have hkeyne : ∀ p ∈ rest, p.1 ≠ e.1 := by
      intro p hp heq
      exact (List.nodup_cons.mp hnodup2).1 (List.mem_map.mpr ⟨p, hp, heq⟩)
    have htime_head : ∀ p ∈ rest, e.2.2 ≤ p.2.2 := by
      intro p hp
      exact (List.pairwise_cons.mp htimes2).1 p.2.2 (List.mem_map.mpr ⟨p, hp, rfl⟩)
    have hne : rest ≠ [] := by
      intro h
      rw [h] at hlen
      simp at hlen
    have hsplit : rest.dropLast ++ [rest.getLast hne] = rest :=
      List.dropLast_append_getLast hne
    set rest' := rest.dropLast with hrest'
    set last := rest.getLast hne with hlastdef
    have hlen' : rest'.length = 99 := by
      rw [hrest', List.length_dropLast, hlen]
    have hsub : List.Sublist (e :: rest') (e :: rest) := by
      refine List.Sublist.cons₂ e ?_
      rw [← hsplit]
      exact List.sublist_append_left _ _
    have hnodup100 : ((e :: rest').map (fun p => p.1)).Nodup :=
      hnodup.sublist (hsub.map _)
    have hfresh0 : ∀ el ∈ (e :: rest'),
        assocFind (SmartCache.mk0 48).memoryCache el.1 = none ∧
        assocFind (SmartCache.mk0 48).persistent el.1 = none := by
      intro el _
      exact ⟨rfl, rfl⟩
    have hstage1 := insertAll_fresh (e :: rest') (SmartCache.mk0 48) hfresh0 hnodup100
      (by simp [SmartCache.mk0, hlen'])
    set c1 := insertAll (SmartCache.mk0 48) (e :: rest') with hc1
    have hc1mem : c1.memoryCache = toCacheEntry e :: rest'.map toCacheEntry := by
      rw [hc1, hstage1.1]
      simp [SmartCache.mk0]
    have hc1per : c1.persistent = toCacheEntry e :: rest'.map toCacheEntry := by
      rw [hc1, hstage1.2.1]
      simp [SmartCache.mk0]
    have hc1ttl : c1.ttl = 48 := by
      rw [hc1, hstage1.2.2.1]
      rfl
    have hc1max : c1.max_memory_items = 100 := by
      rw [hc1, hstage1.2.2.2]
      rfl
    have hmemlen : c1.memoryCache.length = 100 := by
      rw [hc1mem]
      simp [hlen']
    have hfull : c1.max_memory_items ≤ c1.memoryCache.length := by
      rw [hc1max, hmemlen]
    have holdest : oldestEntry c1.memoryCache = some (toCacheEntry e) := by
      rw [hc1mem]
      refine oldestEntry_head _ _ ?_
      intro q hq
      rcases List.mem_map.mp hq with ⟨p, hp, rfl⟩
      exact htime_head p (List.dropLast_subset _ hp)
    have hdel : dictDel c1.memoryCache (toCacheEntry e).1 = rest'.map toCacheEntry := by
      rw [hc1mem]
      refine dictDel_cons_fresh _ _ ?_
      intro q hq
      rcases List.mem_map.mp hq with ⟨p, hp, rfl⟩
      exact hkeyne p (List.dropLast_subset _ hp)
    have hlastmem : last ∈ rest := List.getLast_mem hne
    have hrestkeys : (rest.map (fun p => p.1)).Nodup :=
      (List.nodup_cons.mp hnodup2).2
    have hlastkey : ∀ p ∈ rest', p.1 ≠ last.1 := by
      intro p hp heq
      have h1 : ((rest' ++ [last]).map (fun p => p.1)).Nodup := by
        rw [hsplit]
        exact hrestkeys
      rw [List.map_append] at h1
      exact (List.nodup_append.mp h1).2.2 (List.mem_map.mpr ⟨p, hp, rfl⟩) (by simp [heq])
    have hlast_fresh_mem : assocFind (rest'.map toCacheEntry) last.1 = none := by
      refine assocFind_eq_none _ _ ?_
      intro q hq
      rcases List.mem_map.mp hq with ⟨p, hp, rfl⟩
      exact hlastkey p hp
    have hlast_fresh_per : assocFind c1.persistent last.1 = none := by
      rw [hc1per]
      refine assocFind_eq_none _ _ ?_
      intro q hq
      rcases List.mem_cons.mp hq with rfl | hq'
      · exact fun hc => hkeyne last hlastmem hc.symm
      · rcases List.mem_map.mp hq' with ⟨p, hp, rfl⟩
        exact hlastkey p hp
    have hsteps : insertAll (SmartCache.mk0 48) (e :: rest) =
        SmartCache.set c1 last.2.2 last.1 last.2.1 := by
      rw [← hsplit]
      rw [show e :: (rest' ++ [last]) = (e :: rest') ++ [last] from rfl]
      rw [insertAll, List.foldl_append]
      simp only [List.foldl_cons, List.foldl_nil]
      rfl
    have hfmem : (insertAll (SmartCache.mk0 48) (e :: rest)).memoryCache =
        rest.map toCacheEntry := by
      rw [hsteps]
      simp only [SmartCache.set]
      rw [if_pos hfull, holdest]
      dsimp only
      rw [hdel, dictSet_of_none _ _ _ hlast_fresh_mem]
      rw [← hsplit, List.map_append]
      rfl
    have hfper : (insertAll (SmartCache.mk0 48) (e :: rest)).persistent =
        (e :: rest).map toCacheEntry := by
      rw [hsteps]
      simp only [SmartCache.set]
      rw [dictSet_of_none _ _ _ hlast_fresh_per, hc1per]
      rw [← hsplit, List.map_cons, List.map_append]
      rfl
    have hfttl : (insertAll (SmartCache.mk0 48) (e :: rest)).ttl = 48 := by
      rw [hsteps]
      simp only [SmartCache.set]
      exact hc1ttl
    have hfmax : (insertAll (SmartCache.mk0 48) (e :: rest)).max_memory_items = 100 := by
      rw [hsteps]
      simp only [SmartCache.set]
      exact hc1max
    have hflen : (insertAll (SmartCache.mk0 48) (e :: rest)).memoryCache.length = 100 := by
      rw [hfmem]
      simp [hlen]
    have hfind_mem : assocFind (insertAll (SmartCache.mk0 48) (e :: rest)).memoryCache e.1 =
        none := by
      rw [hfmem]
      refine assocFind_eq_none _ _ ?_
      intro q hq
      rcases List.mem_map.mp hq with ⟨p, hp, rfl⟩
      exact hkeyne p hp
    have hfind_per : assocFind (insertAll (SmartCache.mk0 48) (e :: rest)).persistent e.1 =
        some ⟨e.2.1, e.2.2⟩ := by
      rw [hfper, List.map_cons]
      simp only [assocFind, toCacheEntry]
      rw [if_pos trivial]
    refine ⟨hfmem, hflen, hfind_mem, hfind_per, ?_⟩
    intro now hnow
    rw [SmartCache.get, hfind_mem]
    show (getPersistent (insertAll (SmartCache.mk0 48) (e :: rest)) now e.1).1 = some e.2.1
    rw [getPersistent, hfind_per]
    dsimp only
    rw [if_pos (by rw [hfttl]; exact hnow)]
    rw [if_neg (by rw [hflen, hfmax]; omega)]
  · intro ops
    have h := applyOps_capacity ops (SmartCache.mk0 48)
      (by simp [SmartCache.mk0]) (by simp [SmartCache.mk0])
    have h1 := h.1
    rw [h.2] at h1
    exact h1

/-- C7 witness: the theorem applied to the concrete batch
`evictHead :: evictTail` (101 distinct keys, times 0, 1, …, 100) and to
the empty operation sequence. -/
theorem c7_eviction_and_capacity_witness :
    (insertAll (SmartCache.mk0 48) (evictHead :: evictTail)).memoryCache.length = 100 ∧
    assocFind (insertAll (SmartCache.mk0 48)
      (evictHead :: evictTail)).memoryCache evictHead.1 = none ∧
    assocFind (insertAll (SmartCache.mk0 48)
      (evictHead :: evictTail)).persistent evictHead.1 = some ⟨evictHead.2.1, evictHead.2.2⟩ ∧
    (SmartCache.get (insertAll (SmartCache.mk0 48) (evictHead :: evictTail))
      1 evictHead.1).1 = some evictHead.2.1 ∧
    (applyOps (SmartCache.mk0 48) []).memoryCache.length ≤ 100 := by
  have hlen : evictTail.length = 100 := by simp [evictTail]
  have hnodup : ((evictHead :: evictTail).map (fun p => p.1)).Nodup := by
    simp only [evictHead, evictTail, List.map_cons, List.map_map]
    refine List.nodup_cons.mpr ⟨?_, ?_⟩
    · simp [Function.comp, List.replicate_succ]
    · refine List.Nodup.map ?_ (List.nodup_range 100)
      intro i j hij
      have := congrArg List.length hij
      simpa using this
  have htimes : ((evictHead :: evictTail).map (fun p => p.2.2)).Pairwise (· ≤ ·) := by
    simp only [evictHead, evictTail, List.map_cons, List.map_map]
    refine List.pairwise_cons.mpr ⟨?_, ?_⟩
    · intro t ht
      rcases List.mem_map.mp ht with ⟨i, _, rfl⟩
      simp only [Function.comp]
      positivity
    · refine List.Pairwise.map _ ?_ (List.pairwise_lt_range 100)
      intro a b hab
      simp only [Function.comp]
      exact_mod_cast Nat.succ_le_succ hab.le
  have h := (c7_eviction_and_capacity.1 evictHead evictTail hlen hnodup htimes)
  exact ⟨h.2.1, h.2.2.1, h.2.2.2.1,
    h.2.2.2.2 1 (by show (1 : ℚ) - 0 < 48; norm_num),
    c7_eviction_and_capacity.2 []⟩

/-! ### C10 — empty-string cache content is treated as a miss -/

theorem record_request_cacheHits_miss (m : Metrics) (cost : ℚ) (tokens : Nat)
    (rt : ℚ) (er : Bool) :
    (record_request m cost tokens rt false er).cacheHits = m.cacheHits := by
  rw [record_request_eq]
  rfl

theorem apiAttempts_cacheHits (ctx : Ctx) (k os ou md : PyStr) :
    ∀ (fuel : Nat) (st : Sys),
      (apiAttempts ctx k os ou md st fuel).2.analytics.cacheHits =
        st.analytics.cacheHits := by
  intro fuel
  induction fuel with
  | zero => intro st; rfl
  | succ n ih =>
    intro st
    rw [apiAttempts]
    cases ho : ctx.oracle st.netCalls with
    | ok response =>
      dsimp only
      exact record_request_cacheHits_miss _ _ _ _ _
    | error e =>
      dsimp only
      by_cases hn : n = 0
      · rw [if_pos hn]
        exact record_request_cacheHits_miss _ _ _ _ _
      · rw [if_neg hn]
        exact ih _

theorem apiAttempts_netCalls (ctx : Ctx) (k os ou md : PyStr) :
    ∀ (fuel : Nat) (st : Sys), 0 < fuel →
      st.netCalls < (apiAttempts ctx k os ou md st fuel).2.netCalls := by
  intro fuel
  induction fuel with
  | zero => intro st h; exact absurd h (lt_irrefl 0)
  | succ n ih =>
    intro st _
    rw [apiAttempts]
    cases ho : ctx.oracle st.netCalls with
    | ok response =>
      show st.netCalls < st.netCalls + 1
      omega
    | error e =>
      dsimp only
      by_cases hn : n = 0
      · rw [if_pos hn]
        show st.netCalls < st.netCalls + 1
        omega
      · rw [if_neg hn]
        have h2 := ih { st with netCalls := st.netCalls + 1 } (Nat.pos_of_ne_zero hn)
        have h3 : ({ st with netCalls := st.netCalls + 1 } : Sys).netCalls =
            st.netCalls + 1 := rfl
        rw [h3] at h2
        exact Nat.lt_trans (Nat.lt_succ_self _) h2

theorem apiAttempts_first_ok (ctx : Ctx) (k os ou md : PyStr) (st : Sys)
    (response : PyStr) (h : ctx.oracle st.netCalls = .ok response) :
    (apiAttempts ctx k os ou md st 3).1 = .ok (pyStripWs response) := by
  rw [apiAttempts, h]

/-- C10: when the computed cache key maps to a present, unexpired memory
entry whose stored content is the empty string, `smart_api_call` does not
serve it from the cache: the truthiness test treats `""` like absence, so
no cache-hit analytics entry is recorded, at least one network attempt is
made, and when the first attempt succeeds the returned text is the
trimmed network response, not the cached value. -/
theorem c10_empty_string_not_served (ctx : Ctx) (st : Sys)
    (system_msg user_msg : PyStr) (max_tokens : Nat) (temperature : ℚ)
    (model cost_mode : PyStr) (entry : CacheEntry)
    (hfind : assocFind st.cache.memoryCache
      (ctx.mkKey (optimize_for_cost system_msg cost_mode)
        (optimize_for_cost user_msg cost_mode) max_tokens temperature model) = some entry)
    (hfresh : ctx.now - entry.timestamp < st.cache.ttl)
    (hempty : entry.content = []) :
    (smart_api_call ctx st system_msg user_msg
        max_tokens temperature model cost_mode).2.analytics.cacheHits =
      st.analytics.cacheHits ∧
    st.netCalls <
      (smart_api_call ctx st system_msg user_msg
        max_tokens temperature model cost_mode).2.netCalls ∧
    (∀ response, ctx.oracle st.netCalls = .ok response →
      (smart_api_call ctx st system_msg user_msg
        max_tokens temperature model cost_mode).1 = .ok (pyStripWs response)) := by
  have hget : SmartCache.get st.cache ctx.now
      (ctx.mkKey (optimize_for_cost system_msg cost_mode)
        (optimize_for_cost user_msg cost_mode) max_tokens temperature model) =
      (some entry.content, st.cache) := by
    rw [SmartCache.get, hfind]
    dsimp only
    rw [if_pos hfresh]
  have hfalse : pyTruthyOpt (some entry.content) = false := by
    rw [hempty]
    rfl
  have hcall : smart_api_call ctx st system_msg user_msg max_tokens temperature model cost_mode =
      apiAttempts ctx
        (ctx.mkKey (optimize_for_cost system_msg cost_mode)
          (optimize_for_cost user_msg cost_mode) max_tokens temperature model)
        (optimize_for_cost system_msg cost_mode)
        (optimize_for_cost user_msg cost_mode) model st 3 := by
    simp only [smart_api_call, hget]
    rw [if_neg (by rw [hfalse]; exact Bool.false_ne_true)]
  refine ⟨?_, ?_, ?_⟩
  · rw [hcall]
    exact apiAttempts_cacheHits ctx _ _ _ _ 3 st
  · rw [hcall]
    exact apiAttempts_netCalls ctx _ _ _ _ 3 st (by omega)
  · intro response hresp
    rw [hcall]
    exact apiAttempts_first_ok ctx _ _ _ _ st response hresp

/-- C10 witness: the theorem instantiated at `c10Ctx`/`c10Sys`, where the
key `"k"` holds unexpired empty content and the network answers
`"hello world"`. -/
theorem c10_empty_string_not_served_witness :
    (smart_api_call c10Ctx c10Sys "s".data "u".data 5 1
        "gpt-3.5-turbo".data "premium".data).2.analytics.cacheHits =
      c10Sys.analytics.cacheHits ∧
    c10Sys.netCalls <
      (smart_api_call c10Ctx c10Sys "s".data "u".data 5 1
        "gpt-3.5-turbo".data "premium".data).2.netCalls ∧
    (smart_api_call c10Ctx c10Sys "s".data "u".data 5 1
        "gpt-3.5-turbo".data "premium".data).1 = .ok (pyStripWs "hello world".data) := by
  have h := c10_empty_string_not_served c10Ctx c10Sys "s".data "u".data 5 1
    "gpt-3.5-turbo".data "premium".data ⟨[], 0⟩ rfl
    (by show (0 : ℚ) - 0 < 48; norm_num) rfl
  exact ⟨h.1, h.2.1, h.2.2 "hello world".data rfl⟩

/-! ### C8 — validation short-circuit -/

/-- C8: when category, event type, or tone is missing (empty) or equal to
its placeholder, `generate_titles` returns the empty list together with
the structured error/warning dictionary, the error list is non-empty, and
the global state `st` (cache, analytics, network-attempt count) is
returned unchanged — no API call is made and no cost is incurred. -/
theorem c8_validation_short_circuit (ctx : Ctx) (st : Sys)
    (category event_type tone : PyStr) (num_titles : Int)
    (context : PyStr) (cost_mode : PyStr)
    (hbad : category = [] ∨ category = "Select event category".data ∨
            event_type = [] ∨ event_type = "Select event type".data ∨
            tone = [] ∨ tone = "Select tone of event".data) :
    generate_titles ctx st category event_type tone num_titles context cost_mode =
      (.ok ([], .invalid
        (validate_inputs category event_type tone num_titles context).1
        (validate_inputs category event_type tone num_titles context).2), st) ∧
    (validate_inputs category event_type tone num_titles context).1 ≠ [] := by
  have herr : (validate_inputs category event_type tone num_titles context).1 ≠ [] := by
    intro hnil
    simp only [validate_inputs, List.append_eq_nil] at hnil
    obtain ⟨⟨h1, h2⟩, h3⟩ := hnil
    rcases hbad with h | h | h | h | h | h
    · rw [if_pos (Or.inl h)] at h1; simp at h1
    · rw [if_pos (Or.inr h)] at h1; simp at h1
    · rw [if_pos (Or.inl h)] at h2; simp at h2
    · rw [if_pos (Or.inr h)] at h2; simp at h2
    · rw [if_pos (Or.inl h)] at h3; simp at h3
    · rw [if_pos (Or.inr h)] at h3; simp at h3
  refine ⟨?_, herr⟩
  simp only [generate_titles]
  rw [if_pos herr]

/-- C8 witness: an empty category short-circuits with the single error
`"Category is required"` and leaves the state untouched. -/
theorem c8_validation_short_circuit_witness :
    generate_titles c10Ctx c10Sys [] "Conference".data "Professional".data 3 []
        "balanced".data =
      (.ok ([], .invalid
        (validate_inputs [] "Conference".data "Professional".data 3 []).1
        (validate_inputs [] "Conference".data "Professional".data 3 []).2), c10Sys) ∧
    (validate_inputs [] "Conference".data "Professional".data 3 []).1 ≠ [] :=
  c8_validation_short_circuit c10Ctx c10Sys [] "Conference".data "Professional".data
    3 [] "balanced".data (Or.inl rfl)

/-! ### C2 — pipeline lemmas -/

section TitlePipelineLemmas

/- The string primitives are opaque for this section's proofs: the lemmas
treat them as abstract values, and keeping them reducible makes the
elaborator attempt enormous unfoldings. -/
attribute [local irreducible] cleanLine pyStripChars pyStripWs pySplitWs
  pySplitOnChar pyLower pyUpper pyReplace pyJoin clean_json_output
  compress_prompt optimize_for_cost titlePrompts smart_api_call count_tokens
  estimate_cost pyStartsWith pyEndsWith pyContainsSub

theorem LowerInv.push {titles seen : List PyStr} (h : LowerInv titles seen)
    {t : PyStr} (hnew : pyLower t ∉ seen) :
    LowerInv (titles ++ [t]) (seen ++ [pyLower t]) := by
  constructor
  · rw [List.pairwise_append]
    refine ⟨h.1, List.pairwise_singleton _ _, ?_⟩
    intro a ha b hb
    rcases List.mem_singleton.mp hb with rfl
    intro heq
    exact hnew (heq ▸ h.2 a ha)
  · intro x hx
    rcases List.mem_append.mp hx with hx | hx
    · exact List.mem_append_left _ (h.2 x hx)
    · rcases List.mem_singleton.mp hx with rfl
      exact List.mem_append_right _ (List.mem_singleton.mpr rfl)

theorem LowerInv.take {titles seen : List PyStr} (h : LowerInv titles seen)
    (n : Nat) : LowerInv (titles.take n) seen :=
  ⟨h.1.sublist (List.take_sublist n titles),
   fun t ht => h.2 t (List.take_subset n titles ht)⟩

theorem dedupLoop_spec : ∀ (input uniq seen : List PyStr),
    LowerInv uniq seen →
    LowerInv (dedupLoop input uniq seen).1 (dedupLoop input uniq seen).2 ∧
    (∀ t ∈ (dedupLoop input uniq seen).1, t ∈ uniq ∨ t ∈ input) := by
  intro input
  induction input with
  | nil =>
    intro uniq seen h
    exact ⟨h, fun t ht => Or.inl ht⟩
  | cons x rest ih =>
    intro uniq seen h
    rw [dedupLoop]
    by_cases hx : pyLower x ∈ seen
    · rw [if_pos hx]
      obtain ⟨h1, h2⟩ := ih uniq seen h
      exact ⟨h1, fun t ht => (h2 t ht).imp id (List.mem_cons_of_mem x)⟩
    · rw [if_neg hx]
      obtain ⟨h1, h2⟩ := ih (uniq ++ [x]) (seen ++ [pyLower x]) (h.push hx)
      refine ⟨h1, fun t ht => ?_⟩
      rcases h2 t ht with hm | hm
      · rcases List.mem_append.mp hm with hm | hm
        · exact Or.inl hm
        · rcases List.mem_singleton.mp hm with rfl
          exact Or.inr (List.mem_cons_self _ _)
      · exact Or.inr (List.mem_cons_of_mem x hm)

theorem strictTitles_wordBound (items : List JVal) :
    ∀ t ∈ strictTitles items, wordBound t := by
  intro t ht
  rw [strictTitles] at ht
  exact of_decide_eq_true (List.mem_filter.mp ht).2

theorem permissiveExtract0_wordBound (n : Nat) :
    ∀ (lines titles : List PyStr), (∀ t ∈ titles, wordBound t) →
      ∀ t ∈ permissiveExtract0 n lines titles, wordBound t := by
  intro lines
  induction lines with
  | nil =>
    intro titles h
    rw [permissiveExtract0]
    exact h
  | cons line rest ih =>
    intro titles h
    simp only [permissiveExtract0]
    split
    case isTrue hc =>
      have hpush : ∀ t ∈ titles ++ [cleanLine line], wordBound t := by
        intro t ht
        rcases List.mem_append.mp ht with ht | ht
        · exact h t ht
        · rcases List.mem_singleton.mp ht with rfl
          exact hc.2.1
      split
      case isTrue _ => exact hpush
      case isFalse _ => exact ih _ hpush
    case isFalse _ => exact ih _ h

theorem retryStrict_spec (n : Nat) : ∀ (items : List JVal) (titles seen : List PyStr),
    LowerInv titles seen → titles.length < n →
    LowerInv (retryStrict n items titles seen).1 (retryStrict n items titles seen).2 ∧
    (retryStrict n items titles seen).1.length ≤ n ∧
    (∃ r, (retryStrict n items titles seen).1 = titles ++ r ∧ ∀ t ∈ r, wordBound t) := by
  intro items
  induction items with
  | nil =>
    intro titles seen h hlen
    rw [retryStrict]
    exact ⟨h, Nat.le_of_lt hlen, ⟨[], by simp, by simp⟩⟩
  | cons v rest ih =>
    intro titles seen h hlen
    simp only [retryStrict]
    split
    case isTrue hc =>
      split
      case isTrue hbreak =>
        refine ⟨h.push hc.2.2, ?_, ⟨[pyStripWs v.pyStr], rfl, ?_⟩⟩
        · simp only [List.length_append, List.length_cons, List.length_nil]
          omega
        · intro t ht
          rcases List.mem_singleton.mp ht with rfl
          exact hc.2.1
      case isFalse hbreak =>
        have hlen2 : (titles ++ [pyStripWs v.pyStr]).length < n := by
          simp only [List.length_append, List.length_cons, List.length_nil] at hbreak ⊢
          omega
        obtain ⟨h1, h2, r, hr, hwb⟩ := ih _ _ (h.push hc.2.2) hlen2
        refine ⟨h1, h2, ⟨[pyStripWs v.pyStr] ++ r, by rw [hr, List.append_assoc], ?_⟩⟩
        intro t ht
        rcases List.mem_append.mp ht with ht | ht
        · rcases List.mem_singleton.mp ht with rfl
          exact hc.2.1
        · exact hwb t ht
    case isFalse _ => exact ih _ _ h hlen

theorem retryPermissive_spec (n : Nat) : ∀ (lines : List PyStr) (titles seen : List PyStr),
    LowerInv titles seen → titles.length < n →
    LowerInv (retryPermissive n lines titles seen).1 (retryPermissive n lines titles seen).2 ∧
    (retryPermissive n lines titles seen).1.length ≤ n ∧
    (∃ r, (retryPermissive n lines titles seen).1 = titles ++ r ∧ ∀ t ∈ r, wordBound t) := by
  intro lines
  induction lines with
  | nil =>
    intro titles seen h hlen
    rw [retryPermissive]
    exact ⟨h, Nat.le_of_lt hlen, ⟨[], by simp, by simp⟩⟩
  | cons line rest ih =>
    intro titles seen h hlen
    simp only [retryPermissive]
    split
    case isTrue hc =>
      split
      case isTrue hbreak =>
        refine ⟨h.push hc.2.2, ?_, ⟨[cleanLine line], rfl, ?_⟩⟩
        · simp only [List.length_append, List.length_cons, List.length_nil]
          omega
        · intro t ht
          rcases List.mem_singleton.mp ht with rfl
          exact hc.2.1
      case isFalse hbreak =>
        have hlen2 : (titles ++ [cleanLine line]).length < n := by
          simp only [List.length_append, List.length_cons, List.length_nil] at hbreak ⊢
          omega
        obtain ⟨h1, h2, r, hr, hwb⟩ := ih _ _ (h.push hc.2.2) hlen2
        refine ⟨h1, h2, ⟨[cleanLine line] ++ r, by rw [hr, List.append_assoc], ?_⟩⟩
        intro t ht
        rcases List.mem_append.mp ht with ht | ht
        · rcases List.mem_singleton.mp ht with rfl
          exact hc.2.1
        · exact hwb t ht
    case isFalse _ => exact ih _ _ h hlen

theorem retryLoop_spec (ctx : Ctx) (category event_type tone system_msg : PyStr)
    (n max_tokens : Nat) (temperature : ℚ) (cost_mode : PyStr) :
    ∀ (fuel : Nat) (st : Sys) (titles seen : List PyStr) (rc : Nat)
      (titles2 seen2 : List PyStr) (rc2 : Nat) (st2 : Sys),
      retryLoop ctx category event_type tone system_msg n max_tokens temperature
        cost_mode fuel st titles seen rc = (.ok (titles2, seen2, rc2), st2) →
      LowerInv titles seen → titles.length ≤ n →
      LowerInv titles2 seen2 ∧ titles2.length ≤ n ∧
      (∃ r, titles2 = titles ++ r ∧ ∀ t ∈ r, wordBound t) := by
  intro fuel
  induction fuel with
  | zero =>
    intro st titles seen rc t2 s2 r2 st2 heq h hlen
    rw [retryLoop] at heq
    simp only [Prod.mk.injEq, Except.ok.injEq] at heq
    obtain ⟨⟨ht, hs, _⟩, _⟩ := heq
    subst ht
    subst hs
    exact ⟨h, hlen, ⟨[], by simp, by simp⟩⟩
  | succ k ih =>
    intro st titles seen rc t2 s2 r2 st2 heq h hlen
    simp only [retryLoop] at heq
    by_cases hshort : titles.length < n
    · rw [if_pos hshort] at heq
      split at heq
      · simp at heq
      · rename_i result2 st' hcall
        split at heq
        · rename_i items hjp
          obtain ⟨h1, h2, r1, hr1, hwb1⟩ :=
            retryStrict_spec n items titles seen h hshort
          obtain ⟨h3, h4, r2x, hr2, hwb2⟩ := ih st' _ _ (rc + 1) t2 s2 r2 st2 heq h1 h2
          refine ⟨h3, h4, ⟨r1 ++ r2x, ?_, ?_⟩⟩
          · rw [hr2, hr1, List.append_assoc]
          · intro t ht
            rcases List.mem_append.mp ht with ht | ht
            · exact hwb1 t ht
            · exact hwb2 t ht
        · rename_i hjp
          obtain ⟨h3, h4, r2x, hr2, hwb2⟩ := ih st' _ _ (rc + 1) t2 s2 r2 st2 heq h hlen
          exact ⟨h3, h4, ⟨r2x, hr2, hwb2⟩⟩
        · rename_i msg hjp
          obtain ⟨h1, h2, r1, hr1, hwb1⟩ :=
            retryPermissive_spec n (permissiveLines result2) titles seen h hshort
          obtain ⟨h3, h4, r2x, hr2, hwb2⟩ := ih st' _ _ (rc + 1) t2 s2 r2 st2 heq h1 h2
          refine ⟨h3, h4, ⟨r1 ++ r2x, ?_, ?_⟩⟩
          · rw [hr2, hr1, List.append_assoc]
          · intro t ht
            rcases List.mem_append.mp ht with ht | ht
            · exact hwb1 t ht
            · exact hwb2 t ht
    · rw [if_neg hshort] at heq
      simp only [Prod.mk.injEq, Except.ok.injEq] at heq
      obtain ⟨⟨ht, hs, _⟩, _⟩ := heq
      subst ht
      subst hs
      exact ⟨h, hlen, ⟨[], by simp, by simp⟩⟩

theorem fallbackLoop_spec (n : Nat) : ∀ (cands titles seen : List PyStr) (used : Bool),
    LowerInv titles seen → titles.length ≤ n →
    LowerInv (fallbackLoop n cands titles seen used).1 (fallbackLoop n cands titles seen used).2.1 ∧
    (fallbackLoop n cands titles seen used).1.length ≤ n ∧
    (∃ r, (fallbackLoop n cands titles seen used).1 = titles ++ r ∧ ∀ t ∈ r, wordBound t) := by
  intro cands
  induction cands with
  | nil =>
    intro titles seen used h hlen
    rw [fallbackLoop]
    exact ⟨h, hlen, ⟨[], by simp, by simp⟩⟩
  | cons cand rest ih =>
    intro titles seen used h hlen
    simp only [fallbackLoop]
    split
    case isTrue hshort =>
      split
      case isTrue hc =>
        have hlen2 : (titles ++ [cand]).length ≤ n := by
          simp only [List.length_append, List.length_cons, List.length_nil]
          omega
        obtain ⟨h1, h2, r, hr, hwb⟩ := ih _ _ true (h.push hc.1) hlen2
        refine ⟨h1, h2, ⟨[cand] ++ r, by rw [hr, List.append_assoc], ?_⟩⟩
        intro t ht
        rcases List.mem_append.mp ht with ht | ht
        · rcases List.mem_singleton.mp ht with rfl
          exact hc.2
        · exact hwb t ht
      case isFalse _ => exact ih _ _ used h hlen
    case isFalse _ => exact ⟨h, hlen, ⟨[], by simp, by simp⟩⟩

end TitlePipelineLemmas

/-! ### Decimal-rendering facts for the numbered fillers -/

theorem natStrGo_congr : ∀ (n f1 f2 : Nat) (acc : PyStr),
    n < f1 → n < f2 → natStrGo f1 n acc = natStrGo f2 n acc := by
  intro n
  induction n using Nat.strong_induction_on with
  | _ n ih =>
    intro f1 f2 acc h1 h2
    obtain ⟨g1, rfl⟩ : ∃ g1, f1 = g1 + 1 := ⟨f1 - 1, by omega⟩
    obtain ⟨g2, rfl⟩ : ∃ g2, f2 = g2 + 1 := ⟨f2 - 1, by omega⟩
    rw [natStrGo, natStrGo]
    by_cases hn : n < 10
    · rw [if_pos hn, if_pos hn]
    · rw [if_neg hn, if_neg hn]
      have hd : n / 10 < n := Nat.div_lt_self (by omega) (by omega)
      exact ih (n / 10) hd g1 g2 _ (by omega) (by omega)

theorem natStrGo_acc : ∀ (n f : Nat) (acc : PyStr), n < f →
    natStrGo f n acc = natStrGo f n [] ++ acc := by
  intro n
  induction n using Nat.strong_induction_on with
  | _ n ih =>
    intro f acc hf
    obtain ⟨g, rfl⟩ : ∃ g, f = g + 1 := ⟨f - 1, by omega⟩
    rw [natStrGo, natStrGo]
    by_cases hn : n < 10
    · rw [if_pos hn, if_pos hn]
      rfl
    · rw [if_neg hn, if_neg hn]
      have hd : n / 10 < n := Nat.div_lt_self (by omega) (by omega)
      have hg : n / 10 < g := by omega
      rw [ih (n / 10) hd g _ hg, ih (n / 10) hd g [digitChar (n % 10)] hg,
        List.append_assoc]
      rfl

theorem natStr_rec (n : Nat) :
    natStr n = if n < 10 then [digitChar n]
      else natStr (n / 10) ++ [digitChar (n % 10)] := by
  rw [natStr, natStrGo]
  by_cases hn : n < 10
  · rw [if_pos hn, if_pos hn]
  · rw [if_neg hn, if_neg hn]
    have hd : n / 10 < n := Nat.div_lt_self (by omega) (by omega)
    rw [natStrGo_acc (n / 10) n _ hd]
    rw [natStrGo_congr (n / 10) n (n / 10 + 1) [] hd (Nat.lt_succ_self _)]
    rfl

theorem digitVal_digitChar (d : Nat) (hd : d < 10) :
    digitVal (digitChar d) = d := by
  interval_cases d <;> rfl

theorem digitsVal_append_digit (l : PyStr) (c : Char) :
    digitsVal (l ++ [c]) = 10 * digitsVal l + digitVal c := by
  rw [digitsVal, digitsVal, List.foldl_append]
  rfl

theorem digitsVal_natStr (n : Nat) : digitsVal (natStr n) = n := by
  induction n using Nat.strong_induction_on with
  | _ n ih =>
    rw [natStr_rec n]
    by_cases hn : n < 10
    · rw [if_pos hn]
      simp only [digitsVal, List.foldl_cons, List.foldl_nil]
      rw [digitVal_digitChar n hn]
      omega
    · rw [if_neg hn]
      rw [digitsVal_append_digit]
      rw [ih (n / 10) (Nat.div_lt_self (by omega) (by omega))]
      rw [digitVal_digitChar (n % 10) (Nat.mod_lt _ (by omega))]
      omega

theorem digitChar_toLower (d : Nat) (hd : d < 10) :
    (digitChar d).toLower = digitChar d := by
  interval_cases d <;> decide

theorem natStr_digits (n : Nat) : ∀ c ∈ natStr n, ∃ d, d < 10 ∧ c = digitChar d := by
  induction n using Nat.strong_induction_on with
  | _ n ih =>
    rw [natStr_rec n]
    by_cases hn : n < 10
    · rw [if_pos hn]
      intro c hc
      rcases List.mem_singleton.mp hc with rfl
      exact ⟨n, hn, rfl⟩
    · rw [if_neg hn]
      intro c hc
      rcases List.mem_append.mp hc with hc | hc
      · exact ih (n / 10) (Nat.div_lt_self (by omega) (by omega)) c hc
      · rcases List.mem_singleton.mp hc with rfl
        exact ⟨n % 10, Nat.mod_lt _ (by omega), rfl⟩

theorem pyLower_natStr (n : Nat) : pyLower (natStr n) = natStr n := by
  rw [pyLower]
  rw [List.map_congr_left (fun c hc => ?_), List.map_id]
  obtain ⟨d, hd, rfl⟩ := natStr_digits n c hc
  exact digitChar_toLower d hd

theorem pyStartsWith_append_self : ∀ (pfx rest : PyStr),
    pyStartsWith (pfx ++ rest) pfx = true := by
  intro pfx
  induction pfx with
  | nil => intro rest; cases rest <;> rfl
  | cons c cs ih =>
    intro rest
    rw [List.cons_append, pyStartsWith]
    simp [ih rest]

theorem pyLower_fillerStr (category event_type : PyStr) (i : Nat) :
    pyLower (fillerStr category event_type i) =
      pyLower (category ++ " ".data ++ event_type ++ " ".data) ++ natStr i := by
  rw [fillerStr]
  show ((category ++ " ".data ++ event_type ++ " ".data) ++ natStr i).map Char.toLower = _
  rw [List.map_append]
  rw [show (natStr i).map Char.toLower = natStr i from pyLower_natStr i]
  rfl

theorem isFillerGe_fillerStr (category event_type : PyStr) (i j : Nat) :
    isFillerGe category event_type i (pyLower (fillerStr category event_type j)) =
      decide (i ≤ j) := by
  simp only [isFillerGe]
  rw [pyLower_fillerStr]
  rw [pyStartsWith_append_self]
  rw [List.drop_left]
  rw [digitsVal_natStr]
  simp

theorem isFillerGe_mono (category event_type : PyStr) (i : Nat) (x : PyStr)
    (h : isFillerGe category event_type (i + 1) x = true) :
    isFillerGe category event_type i x = true := by
  simp only [isFillerGe, Bool.and_eq_true, decide_eq_true_eq] at h ⊢
  exact ⟨⟨h.1.1, h.1.2⟩, by omega⟩

theorem countP_le_countP_of_imp {α : Type} (p q : α → Bool) (l : List α)
    (himp : ∀ x, p x = true → q x = true) : l.countP p ≤ l.countP q := by
  induction l with
  | nil => simp
  | cons b rest ih =>
    by_cases hpb : p b = true
    · rw [List.countP_cons_of_pos _ _ hpb, List.countP_cons_of_pos _ _ (himp b hpb)]
      omega
    · rw [List.countP_cons_of_neg _ _ hpb]
      by_cases hqb : q b = true
      · rw [List.countP_cons_of_pos _ _ hqb]
        omega
      · rw [List.countP_cons_of_neg _ _ hqb]
        exact ih

theorem countP_lt_of_mem {α : Type} (p q : α → Bool) (l : List α) (a : α)
    (ha : a ∈ l) (hpa : p a = true) (hqa : q a = false)
    (himp : ∀ x, q x = true → p x = true) :
    l.countP q < l.countP p := by
  induction l with
  | nil => cases ha
  | cons b rest ih =>
    rcases List.mem_cons.mp ha with rfl | ha'
    · rw [List.countP_cons_of_pos _ _ hpa,
        List.countP_cons_of_neg _ _ (by simp [hqa])]
      have := countP_le_countP_of_imp q p rest himp
      omega
    · have hrec := ih ha'
      by_cases hqb : q b = true
      · rw [List.countP_cons_of_pos _ _ (himp b hqb), List.countP_cons_of_pos _ _ hqb]
        omega
      · rw [List.countP_cons_of_neg _ _ hqb]
        by_cases hpb : p b = true
        · rw [List.countP_cons_of_pos _ _ hpb]
          omega
        · rw [List.countP_cons_of_neg _ _ hpb]
          omega

/-! ### C2 — the filler loop and the assembled title pipeline -/

section TitleMainLemmas

/- Same sealing as above: symbolic pipeline proofs must not unfold the
string primitives. -/
attribute [local irreducible] cleanLine pyStripChars pyStripWs pySplitWs
  pySplitOnChar pyLower pyUpper pyReplace pyJoin clean_json_output
  compress_prompt optimize_for_cost titlePrompts smart_api_call count_tokens
  estimate_cost pyStartsWith pyEndsWith pyContainsSub natStr fillerStr
  isFillerGe

theorem fillerLoop_spec (category event_type : PyStr) (n : Nat) :
    ∀ (fuel i : Nat) (titles seen : List PyStr) (used : Bool),
      LowerInv titles seen →
      LowerInv (fillerLoop category event_type n fuel i titles seen used).1
        (fillerLoop category event_type n fuel i titles seen used).2.1 ∧
      (∃ r, (fillerLoop category event_type n fuel i titles seen used).1 =
          titles ++ r ∧
        ∀ t ∈ r, ∃ j, t = fillerStr category event_type j) := by
  intro fuel
  induction fuel with
  | zero =>
    intro i titles seen used h
    rw [fillerLoop]
    exact ⟨h, ⟨[], by simp, by simp⟩⟩
  | succ k ih =>
    intro i titles seen used h
    simp only [fillerLoop]
    by_cases hshort : titles.length < n
    · rw [if_pos hshort]
      by_cases hmem : pyLower (fillerStr category event_type i) ∈ seen
      · rw [if_pos hmem]
        exact ih (i + 1) titles seen used h
      · rw [if_neg hmem]
        obtain ⟨h2, r, hr, hfill⟩ := ih (i + 1)
          (titles ++ [fillerStr category event_type i])
          (seen ++ [pyLower (fillerStr category event_type i)]) true
          (h.push hmem)
        refine ⟨h2, [fillerStr category event_type i] ++ r, ?_, ?_⟩
        · rw [hr, List.append_assoc]
        · intro t ht
          rcases List.mem_append.mp ht with ht | ht
          · rcases List.mem_singleton.mp ht with rfl
            exact ⟨i, rfl⟩
          · exact hfill t ht
    · rw [if_neg hshort]
      exact ⟨h, ⟨[], by simp, by simp⟩⟩

theorem fillerLoop_fills (category event_type : PyStr) (n : Nat) :
    ∀ (fuel i : Nat) (titles seen : List PyStr) (used : Bool),
      titles.length ≤ n →
      List.countP (isFillerGe category event_type i) seen +
        (n - titles.length) ≤ fuel →
      (fillerLoop category event_type n fuel i titles seen used).1.length = n := by
  intro fuel
  induction fuel with
  | zero =>
    intro i titles seen used hlen hfuel
    rw [fillerLoop]
    show titles.length = n
    omega
  | succ k ih =>
    intro i titles seen used hlen hfuel
    simp only [fillerLoop]
    by_cases hshort : titles.length < n
    · rw [if_pos hshort]
      by_cases hmem : pyLower (fillerStr category event_type i) ∈ seen
      · rw [if_pos hmem]
        apply ih (i + 1) titles seen used hlen
        have hdec := countP_lt_of_mem
          (isFillerGe category event_type i)
          (isFillerGe category event_type (i + 1)) seen
          (pyLower (fillerStr category event_type i)) hmem
          (by rw [isFillerGe_fillerStr]; exact decide_eq_true (Nat.le_refl i))
          (by rw [isFillerGe_fillerStr]; exact decide_eq_false (by omega))
          (fun x hx => isFillerGe_mono category event_type i x hx)
        omega
      · rw [if_neg hmem]
        have hnot : ¬ (isFillerGe category event_type (i + 1)
            (pyLower (fillerStr category event_type i)) = true) := by
          rw [isFillerGe_fillerStr]
          simp only [decide_eq_true_eq]
          omega
        have hmono := countP_le_countP_of_imp
          (isFillerGe category event_type (i + 1))
          (isFillerGe category event_type i) seen
          (fun x hx => isFillerGe_mono category event_type i x hx)
        apply ih (i + 1) (titles ++ [fillerStr category event_type i])
          (seen ++ [pyLower (fillerStr category event_type i)]) true
        · rw [List.length_append]
          simp only [List.length_cons, List.length_nil]
          omega
        · rw [List.countP_append, List.countP_cons_of_neg _ _ hnot,
            List.countP_nil, List.length_append]
          simp only [List.length_cons, List.length_nil]
          omega
    · rw [if_neg hshort]
      show titles.length = n
      omega

theorem parseRound0_wordBound (jp : JsonOut) (n : Nat) (result : PyStr) :
    ∀ t ∈ (parseRound0 jp n result).1, wordBound t := by
  intro t ht
  cases jp with
  | jlist items =>
    simp only [parseRound0] at ht
    exact strictTitles_wordBound items t ht
  | jnonlist =>
    simp only [parseRound0] at ht
    exact absurd ht (List.not_mem_nil t)
  | jerror msg =>
    simp only [parseRound0] at ht
    exact permissiveExtract0_wordBound n (permissiveLines result) []
      (fun x hx => absurd hx (List.not_mem_nil x)) t ht

/-- C2, amended: on every valid input, a successful `generate_titles` run
returns exactly `clamp(num_titles, 1, 5)` titles, pairwise
case-insensitively distinct, and decomposable into a prefix of titles
that all satisfy the 3–6-word bound (parsed round-0 items, retry items
and creative fallbacks, in acceptance order) followed by a suffix of
numbered literal fillers `f"{category} {event_type} {i}"` — the fillers
are NOT word-bound-checked, so the per-title 3–6-word guarantee of the
claim holds only for the non-filler prefix. -/
theorem c2_titles_amended (ctx : Ctx) (st : Sys) (category event_type tone : PyStr)
    (num_titles : Int) (context : PyStr) (cost_mode : PyStr)
    (titles : List PyStr) (logs : TitleLogs) (st2 : Sys)
    (hval : (validate_inputs category event_type tone num_titles context).1 = [])
    (hrun : generate_titles ctx st category event_type tone num_titles context
      cost_mode = (.ok (titles, logs), st2)) :
    titles.length = (max 1 (min num_titles 5)).toNat ∧
    List.Pairwise (fun a b => pyLower a ≠ pyLower b) titles ∧
    ∃ a r, titles = a ++ r ∧ (∀ t ∈ a, wordBound t) ∧
      ∀ t ∈ r, ∃ j, t = fillerStr category event_type j := by
  simp only [generate_titles] at hrun
  rw [if_neg (fun hc => hc hval)] at hrun
  split at hrun
  · simp at hrun
  · rename_i result st1 heq1
    split at hrun
    · simp at hrun
    · rename_i titlesR seenR retry_count st1R heq2
      simp only [Prod.mk.injEq, Except.ok.injEq] at hrun
      obtain ⟨⟨htitles, hlogs⟩, hst⟩ := hrun
      have hdd := dedupLoop_spec
        (parseRound0 (ctx.jparse (clean_json_output result))
          (max 1 (min num_titles 5)).toNat result).1 [] []
        ⟨List.Pairwise.nil, fun t ht => absurd ht (List.not_mem_nil t)⟩
      have hLower1 : LowerInv
          ((dedupLoop (parseRound0 (ctx.jparse (clean_json_output result))
            (max 1 (min num_titles 5)).toNat result).1 [] []).1.take
            (max 1 (min num_titles 5)).toNat)
          (dedupLoop (parseRound0 (ctx.jparse (clean_json_output result))
            (max 1 (min num_titles 5)).toNat result).1 [] []).2 :=
        hdd.1.take _
      have hlen1 : ((dedupLoop (parseRound0 (ctx.jparse (clean_json_output result))
          (max 1 (min num_titles 5)).toNat result).1 [] []).1.take
            (max 1 (min num_titles 5)).toNat).length ≤
          (max 1 (min num_titles 5)).toNat := by
        rw [List.length_take]
        exact min_le_left _ _
      have hwb1 : ∀ t ∈ ((dedupLoop (parseRound0 (ctx.jparse (clean_json_output result))
          (max 1 (min num_titles 5)).toNat result).1 [] []).1.take
            (max 1 (min num_titles 5)).toNat), wordBound t := by
        intro t ht
        have hmem := List.take_subset _ _ ht
        rcases hdd.2 t hmem with h | h
        · exact absurd h (List.not_mem_nil t)
        · exact parseRound0_wordBound _ _ result t h
      have hretry := retryLoop_spec _ _ _ _ _ _ _ _ _ _ _ _ _ _ _ _ _ _
        heq2 hLower1 hlen1
      have htake2 : titlesR.take (max 1 (min num_titles 5)).toNat = titlesR :=
        List.take_of_length_le hretry.2.1
      rw [htake2] at htitles
      have hfb := fallbackLoop_spec (max 1 (min num_titles 5)).toNat
        (creative_fallbacks category event_type tone)
        titlesR seenR false hretry.1 hretry.2.1
      have hflspec := fillerLoop_spec category event_type
        (max 1 (min num_titles 5)).toNat
        ((max 1 (min num_titles 5)).toNat +
          (fallbackLoop (max 1 (min num_titles 5)).toNat
            (creative_fallbacks category event_type tone)
            titlesR seenR false).2.1.length) 1
        (fallbackLoop (max 1 (min num_titles 5)).toNat
          (creative_fallbacks category event_type tone)
          titlesR seenR false).1
        (fallbackLoop (max 1 (min num_titles 5)).toNat
          (creative_fallbacks category event_type tone)
          titlesR seenR false).2.1
        (fallbackLoop (max 1 (min num_titles 5)).toNat
          (creative_fallbacks category event_type tone)
          titlesR seenR false).2.2
        hfb.1
      have hcount : List.countP (isFillerGe category event_type 1)
          (fallbackLoop (max 1 (min num_titles 5)).toNat
            (creative_fallbacks category event_type tone)
            titlesR seenR false).2.1 ≤
          (fallbackLoop (max 1 (min num_titles 5)).toNat
            (creative_fallbacks category event_type tone)
            titlesR seenR false).2.1.length :=
        List.countP_le_length _
      have hfill_len := fillerLoop_fills category event_type
        (max 1 (min num_titles 5)).toNat
        ((max 1 (min num_titles 5)).toNat +
          (fallbackLoop (max 1 (min num_titles 5)).toNat
            (creative_fallbacks category event_type tone)
            titlesR seenR false).2.1.length) 1
        (fallbackLoop (max 1 (min num_titles 5)).toNat
          (creative_fallbacks category event_type tone)
          titlesR seenR false).1
        (fallbackLoop (max 1 (min num_titles 5)).toNat
          (creative_fallbacks category event_type tone)
          titlesR seenR false).2.1
        (fallbackLoop (max 1 (min num_titles 5)).toNat
          (creative_fallbacks category event_type tone)
          titlesR seenR false).2.2
        hfb.2.1 (by omega)
      obtain ⟨r1, hr1, hwbr1⟩ := hretry.2.2
      obtain ⟨r2, hr2, hwbr2⟩ := hfb.2.2
      obtain ⟨hLowerF, r3, hr3, hfillr3⟩ := hflspec
      subst htitles
      refine ⟨hfill_len, hLowerF.1, titlesR ++ r2, r3, ?_, ?_, hfillr3⟩
      · rw [hr3, hr2]
      · intro t ht
        rcases List.mem_append.mp ht with ht | ht
        · rw [hr1] at ht
          rcases List.mem_append.mp ht with ht | ht
          · exact hwb1 t ht
          · exact hwbr1 t ht
        · exact hwbr2 t ht

end TitleMainLemmas

/-- C2 counterexample: on the valid input (category `"a b c d e"`,
event type `"f"`, tone `"x"`, 5 titles, balanced mode) with a failing
JSON decoder and empty network answers, `generate_titles` succeeds and
returns the numbered filler `"a b c d e f 1"` among its five titles — a
7-word title, violating the claimed 3–6-word bound on every returned
title (line 428 of the source appends fillers without any length
check). -/
theorem c2_filler_counterexample :
    (∃ logs st2,
      generate_titles c2Ctx c2Sys "a b c d e".data "f".data "x".data 5 []
        "balanced".data = (.ok (c2Titles, logs), st2)) ∧
    (validate_inputs "a b c d e".data "f".data "x".data 5 []).1 = [] ∧
    "a b c d e f 1".data ∈ c2Titles ∧ ¬ wordBound "a b c d e f 1".data :=
  ⟨⟨_, _, rfl⟩, rfl, by decide, by decide⟩

/-- C2 witness: the amended theorem applied to the concrete successful
run used by the counterexample above. -/
theorem c2_titles_amended_witness :
    ∃ logs st2,
      generate_titles c2Ctx c2Sys "a b c d e".data "f".data "x".data 5 []
        "balanced".data = (.ok (c2Titles, logs), st2) ∧
      (c2Titles.length = (max 1 (min (5 : Int) 5)).toNat ∧
       List.Pairwise (fun a b => pyLower a ≠ pyLower b) c2Titles ∧
       ∃ a r, c2Titles = a ++ r ∧ (∀ t ∈ a, wordBound t) ∧
         ∀ t ∈ r, ∃ j, t = fillerStr "a b c d e".data "f".data j) := by
  refine ⟨_, _, rfl, ?_⟩
  exact c2_titles_amended c2Ctx c2Sys "a b c d e".data "f".data "x".data 5 []
    "balanced".data c2Titles _ _ rfl rfl

/-! ### C4 — description budget and sentence-boundary truncation -/

theorem dropAfterLastPeriod_length_le (d : PyStr) :
    (dropAfterLastPeriod d).length ≤ d.length := by
  rw [dropAfterLastPeriod, List.length_reverse]
  calc (d.reverse.dropWhile (fun c => c != '.')).length
      ≤ d.reverse.length := (List.dropWhile_sublist _).length_le
    _ = d.length := List.length_reverse _

theorem truncate_description_length_le (mc : Nat) (d : PyStr) :
    (truncate_description mc d).length ≤ mc := by
  simp only [truncate_description]
  by_cases h : mc < d.length
  · rw [if_pos h]
    by_cases hp : '.' ∈ d.take mc
    · rw [if_pos hp]
      calc (dropAfterLastPeriod (d.take mc)).length
          ≤ (d.take mc).length := dropAfterLastPeriod_length_le _
        _ ≤ mc := by rw [List.length_take]; exact min_le_left _ _
    · rw [if_neg hp]
      rw [List.length_take]
      exact min_le_left _ _
  · rw [if_neg h]
    omega

theorem dropWhile_head_period : ∀ (l : List Char), '.' ∈ l →
    ∃ rest, l.dropWhile (fun c => c != '.') = '.' :: rest := by
  intro l h
  induction l with
  | nil => cases h
  | cons c cs ih =>
    by_cases hc : c = '.'
    · subst hc
      exact ⟨cs, by rw [List.dropWhile_cons, if_neg (by decide)]⟩
    · rcases List.mem_cons.mp h with heq | hmem
      · exact absurd heq.symm hc
      · obtain ⟨rest, hr⟩ := ih hmem
        exact ⟨rest, by rw [List.dropWhile_cons, if_pos (by simp [bne_iff_ne, hc]), hr]⟩

theorem truncate_decomp (mc : Nat) (d : PyStr) (hlen : mc < d.length)
    (hp : '.' ∈ d.take mc) :
    ∃ suffix, d.take mc = truncate_description mc d ++ suffix ∧
      '.' ∉ suffix ∧ (truncate_description mc d).getLast? = some '.' := by
  have htr : truncate_description mc d = dropAfterLastPeriod (d.take mc) := by
    simp only [truncate_description]
    rw [if_pos hlen, if_pos hp]
  rw [htr]
  obtain ⟨rest, hr⟩ := dropWhile_head_period (d.take mc).reverse
    (by rw [List.mem_reverse]; exact hp)
  refine ⟨((d.take mc).reverse.takeWhile (fun c => c != '.')).reverse, ?_, ?_, ?_⟩
  · rw [dropAfterLastPeriod]
    conv_lhs => rw [← List.reverse_reverse (d.take mc),
      ← List.takeWhile_append_dropWhile (p := fun c => c != '.')
        (l := (d.take mc).reverse),
      List.reverse_append]
  · intro hmem
    rw [List.mem_reverse] at hmem
    have := List.mem_takeWhile_imp hmem
    simp at this
  · rw [dropAfterLastPeriod, hr, List.getLast?_reverse]
    rfl

section DescriptionLemmas

attribute [local irreducible] cleanLine pyStripChars pyStripWs pySplitWs
  pySplitOnChar pyLower pyUpper pyReplace pyJoin clean_json_output
  compress_prompt optimize_for_cost smart_api_call count_tokens
  estimate_cost pyStartsWith pyEndsWith pyContainsSub natStr descPrompts
  descContextStr desc_raw

/-- C4: whenever `generate_description` succeeds, the returned text never
exceeds the clamped budget `clamp(max_chars, 100, 5000)`; the returned
text is the truncation of the pre-truncation text, and whenever
truncation is triggered (the pre-truncation text exceeds the budget) and
a period exists within the truncated window, the returned text is the
window cut directly after its last period. -/
theorem c4_description_budget (ctx : Ctx) (st : Sys)
    (title category event_type tone context : PyStr) (max_chars : Int)
    (cost_mode : PyStr) (desc : PyStr) (dl : DescLogsData) (st2 : Sys)
    (hrun : generate_description ctx st title category event_type tone context
      max_chars cost_mode = ((desc, .success dl), st2)) :
    desc.length ≤ clamp_chars max_chars ∧
    ∃ t, desc = truncate_description (clamp_chars max_chars) t ∧
      (clamp_chars max_chars < t.length →
        '.' ∈ t.take (clamp_chars max_chars) →
        ∃ suffix, t.take (clamp_chars max_chars) = desc ++ suffix ∧
          '.' ∉ suffix ∧ desc.getLast? = some '.') := by
  simp only [generate_description] at hrun
  split at hrun
  · simp at hrun
  · rename_i description st1 heq
    simp only [Prod.mk.injEq] at hrun
    obtain ⟨⟨hdesc, hlogs⟩, hst⟩ := hrun
    subst hdesc
    refine ⟨truncate_description_length_le _ _, description, rfl, ?_⟩
    intro hlen hp
    exact truncate_decomp _ _ hlen hp

end DescriptionLemmas

/-- C4 witness: the theorem applied to a concrete premium-mode run whose
112-character network answer is truncated to the budget 100 and cut back
to its period at position 51. -/
theorem c4_description_budget_witness :
    ∃ desc dl st2,
      generate_description c4Ctx c4Sys "T".data "C".data "E".data "N".data []
        100 "premium".data = ((desc, DescLogs.success dl), st2) ∧
      (desc.length ≤ clamp_chars 100 ∧
       ∃ t, desc = truncate_description (clamp_chars 100) t ∧
         (clamp_chars 100 < t.length → '.' ∈ t.take (clamp_chars 100) →
           ∃ suffix, t.take (clamp_chars 100) = desc ++ suffix ∧
             '.' ∉ suffix ∧ desc.getLast? = some '.')) := by
  refine ⟨_, _, _, rfl, ?_⟩
  exact c4_description_budget c4Ctx c4Sys "T".data "C".data "E".data "N".data []
    100 "premium".data _ _ _ rfl
